import Mathlib

/-!
# Verification of the gpucachesim core against its specification

Shallow embedding, in Lean 4, of the parts of the gpucachesim repository that
the checked claims are about:

* `mem_fetch` reply handling (`src/playground/src/ref/mem_fetch.hpp`);
* the operand-collector register-file unit: bank allocation table, collector
  units and dispatch units (`src/playground/src/ref/opndcoll_rfu.hpp`);
* the accelsim bridge driver: command processing, kernel launching, the
  cycle loop and the cycle cap (`src/playground/src/ref/bridge/main.cc`);
* the anynet network parser and the routing-table construction
  (`src/playground/sys/src/ref/intersim2/networks/anynet.cpp`).

C++ assertion failures and thrown exceptions are embedded as `Except` errors;
stateful code is explicit state passing.  Machine integers are modelled as
`Int`/`Nat`; where the code relies on a specific machine constant
(`std::numeric_limits<int>::max()`, `(unsigned long long)-1`) the constant
appears explicitly.
-/

namespace GpuCacheSim

/-- An embedded C++ `assert` failure (the process aborts). -/
inductive AssertFail : Type
  | fail : AssertFail
  deriving DecidableEq, Repr

/-! ## Part 1: `mem_fetch` (src/playground/src/ref/mem_fetch.hpp)

`enum mf_type` from mem_fetch.hpp lines 13-18. -/

/-- `enum mf_type` of mem_fetch.hpp: request/reply kind of a memory fetch. -/
inductive mf_type : Type
  | READ_REQUEST
  | WRITE_REQUEST
  | READ_REPLY
  | WRITE_ACK
  deriving DecidableEq, Repr

/-- The memory access type enumeration (`mem_access_type`).  Its definition
lives in `mem_access.hpp`, which only declares the enumerators; the ones that
matter to the embedded code are the two write-back kinds, which
`mem_fetch::set_reply` asserts against.  Enumerator list as used by the
repository sources. -/
inductive mem_access_type : Type
  | GLOBAL_ACC_R
  | LOCAL_ACC_R
  | CONST_ACC_R
  | TEXTURE_ACC_R
  | GLOBAL_ACC_W
  | LOCAL_ACC_W
  | L1_WRBK_ACC
  | L2_WRBK_ACC
  | INST_ACC_R
  | L1_WR_ALLOC_R
  | L2_WR_ALLOC_R
  deriving DecidableEq, Repr

/-- `mem_access_t`, the access descriptor held by a `mem_fetch`
(fields referenced through the accessors used in mem_fetch.hpp:
`get_type`, `is_write`, `get_addr`, `get_size`). -/
structure mem_access_t : Type where
  m_type : mem_access_type
  m_addr : Nat
  m_req_size : Nat
  m_write : Bool
  deriving DecidableEq, Repr

/-- `enum mem_fetch_status` (src/playground/src/ref/mem_fetch_status.hpp). -/
inductive mem_fetch_status : Type
  | MEM_FETCH_INITIALIZED
  | IN_L1I_MISS_QUEUE
  | IN_L1D_MISS_QUEUE
  | IN_L1T_MISS_QUEUE
  | IN_L1C_MISS_QUEUE
  | IN_L1TLB_MISS_QUEUE
  | IN_VM_MANAGER_QUEUE
  | IN_ICNT_TO_MEM
  | IN_PARTITION_ROP_DELAY
  | IN_PARTITION_ICNT_TO_L2_QUEUE
  | IN_PARTITION_L2_TO_DRAM_QUEUE
  | IN_PARTITION_DRAM_LATENCY_QUEUE
  | IN_PARTITION_L2_MISS_QUEUE
  | IN_PARTITION_MC_INTERFACE_QUEUE
  | IN_PARTITION_MC_INPUT_QUEUE
  | IN_PARTITION_MC_BANK_ARB_QUEUE
  | IN_PARTITION_DRAM
  | IN_PARTITION_MC_RETURNQ
  | IN_PARTITION_DRAM_TO_L2_QUEUE
  | IN_PARTITION_L2_FILL_QUEUE
  | IN_PARTITION_L2_TO_ICNT_QUEUE
  | IN_ICNT_TO_SHADER
  | IN_CLUSTER_TO_SHADER_QUEUE
  | IN_SHADER_LDST_RESPONSE_FIFO
  | IN_SHADER_FETCHED
  | IN_SHADER_L1T_ROB
  | MEM_FETCH_DELETED
  | NUM_MEM_REQ_STAT
  deriving DecidableEq, Repr

/-- The state of a `mem_fetch` object (mem_fetch.hpp lines 123-168).
The `warp_inst_t` member and the parent pointers are request payload that
`set_reply` never reads or writes; they are represented by opaque `Nat`
handles so that "changes no other field" is expressible. -/
structure mem_fetch : Type where
  m_request_uid : Nat
  m_sid : Nat
  m_tpc : Nat
  m_wid : Nat
  m_status : mem_fetch_status
  m_status_change : Nat
  m_access : mem_access_t
  m_data_size : Nat
  m_ctrl_size : Nat
  m_partition_addr : Nat
  m_raw_addr_chip : Nat
  m_raw_addr_sub_partition : Nat
  m_type : mf_type
  m_timestamp : Nat
  m_timestamp2 : Nat
  m_icnt_receive_time : Nat
  m_inst : Nat
  original_mf : Nat
  original_wr_mf : Nat
  deriving DecidableEq, Repr

namespace mem_fetch

/-- `mem_fetch::is_reply` (mem_fetch.hpp lines 36-38). -/
def is_reply (mf : mem_fetch) : Bool :=
  mf.m_type = mf_type.READ_REPLY || mf.m_type = mf_type.WRITE_ACK

/-- `mem_fetch::get_is_write` (mem_fetch.hpp line 82): `m_access.is_write()`. -/
def get_is_write (mf : mem_fetch) : Bool :=
  mf.m_access.m_write

/-- `mem_fetch::set_reply` (mem_fetch.hpp lines 40-54).  The three `assert`s
of the source are embedded as `Except.error`; the final `else` branch of the
source is a no-op (its `assert(0)` is commented out in the code). -/
def set_reply (mf : mem_fetch) : Except AssertFail mem_fetch :=
  if mf.m_access.m_type = mem_access_type.L1_WRBK_ACC ∨
      mf.m_access.m_type = mem_access_type.L2_WRBK_ACC then
    .error .fail
  else if mf.m_type = mf_type.READ_REQUEST then
    if mf.get_is_write then .error .fail
    else .ok { mf with m_type := mf_type.READ_REPLY }
  else if mf.m_type = mf_type.WRITE_REQUEST then
    if mf.get_is_write then .ok { mf with m_type := mf_type.WRITE_ACK }
    else .error .fail
  else
    .ok mf

/-- The request/write-flag consistency invariant that the `mem_fetch`
constructor establishes (the constructor derives `m_type` from
`m_access.is_write()`; `set_reply` itself asserts this consistency). -/
def rw_consistent (mf : mem_fetch) : Prop :=
  (mf.m_type = mf_type.READ_REQUEST → mf.get_is_write = false) ∧
  (mf.m_type = mf_type.WRITE_REQUEST → mf.get_is_write = true)

/-- The access type is one of the two write-back kinds. -/
def is_writeback_access (mf : mem_fetch) : Prop :=
  mf.m_access.m_type = mem_access_type.L1_WRBK_ACC ∨
  mf.m_access.m_type = mem_access_type.L2_WRBK_ACC

instance (mf : mem_fetch) : Decidable mf.is_writeback_access := by
  unfold is_writeback_access; infer_instance

instance (mf : mem_fetch) : Decidable mf.rw_consistent := by
  unfold rw_consistent; infer_instance

end mem_fetch

/-! ### Concrete `mem_fetch` values used by the witness theorems -/

/-- A read request to global memory (as built by
`shader_core_mem_fetch_allocator::alloc` with `wr = false`). -/
def exFetchRead : mem_fetch :=
  { m_request_uid := 1, m_sid := 0, m_tpc := 0, m_wid := 3
    m_status := .MEM_FETCH_INITIALIZED, m_status_change := 0
    m_access := { m_type := .GLOBAL_ACC_R, m_addr := 0x80, m_req_size := 128, m_write := false }
    m_data_size := 0, m_ctrl_size := 8, m_partition_addr := 0x80
    m_raw_addr_chip := 0, m_raw_addr_sub_partition := 0
    m_type := .READ_REQUEST
    m_timestamp := 0, m_timestamp2 := 0, m_icnt_receive_time := 0
    m_inst := 0, original_mf := 0, original_wr_mf := 0 }

/-- A write request to global memory. -/
def exFetchWrite : mem_fetch :=
  { exFetchRead with
    m_access := { m_type := .GLOBAL_ACC_W, m_addr := 0x100, m_req_size := 32, m_write := true }
    m_type := .WRITE_REQUEST, m_data_size := 32 }

/-- An L2 write-back access (the kind `set_reply` asserts against). -/
def exFetchWrbk : mem_fetch :=
  { exFetchRead with
    m_access := { m_type := .L2_WRBK_ACC, m_addr := 0x200, m_req_size := 128, m_write := true }
    m_type := .WRITE_REQUEST, m_data_size := 128 }

/-! ### Claims C3, C7, C9 -/

/-- C9: for every `mem_fetch`, `is_reply()` returns true if and only if its
type is `READ_REPLY` or `WRITE_ACK` (mem_fetch.hpp lines 36-38). -/
theorem C9_is_reply_iff (mf : mem_fetch) :
    mf.is_reply = true ↔
      (mf.m_type = mf_type.READ_REPLY ∨ mf.m_type = mf_type.WRITE_ACK) := by
  unfold mem_fetch.is_reply
  cases mf.m_type <;> simp

/-- Witness for C9 at a concrete fetch (C9 has an `iff`, stated for
completeness even though the theorem carries no hypothesis). -/
theorem C9_is_reply_iff_witness :
    exFetchRead.is_reply = true ↔
      (exFetchRead.m_type = mf_type.READ_REPLY ∨
        exFetchRead.m_type = mf_type.WRITE_ACK) :=
  C9_is_reply_iff exFetchRead

/-- C3: on every fetch whose access type is neither `L1_WRBK_ACC` nor
`L2_WRBK_ACC` (and whose write flag is consistent with its type, as the
`mem_fetch` constructor guarantees and `set_reply` itself asserts),
`set_reply()` turns `READ_REQUEST` into `READ_REPLY` and `WRITE_REQUEST`
into `WRITE_ACK`, changing no other field; on a write-back access it is an
assertion failure (mem_fetch.hpp lines 40-54). -/
theorem C3_set_reply_spec :
    (∀ mf : mem_fetch, ¬ mf.is_writeback_access → mf.rw_consistent →
      (mf.m_type = mf_type.READ_REQUEST →
        mf.set_reply = .ok { mf with m_type := mf_type.READ_REPLY }) ∧
      (mf.m_type = mf_type.WRITE_REQUEST →
        mf.set_reply = .ok { mf with m_type := mf_type.WRITE_ACK })) ∧
    (∀ mf : mem_fetch, mf.is_writeback_access → mf.set_reply = .error .fail) := by
  constructor
  · intro mf hwb hrw
    unfold mem_fetch.is_writeback_access at hwb
    constructor
    · intro hr
      unfold mem_fetch.set_reply
      rw [if_neg hwb, if_pos hr, if_neg]
      simp [hrw.1 hr]
    · intro hw
      unfold mem_fetch.set_reply
      rw [if_neg hwb]
      rw [if_neg (by rw [hw]; intro h; cases h)]
      rw [if_pos hw, if_pos (hrw.2 hw)]
  · intro mf hwb
    unfold mem_fetch.is_writeback_access at hwb
    unfold mem_fetch.set_reply
    rw [if_pos hwb]

/-- Witness for C3: the theorem applied to the three concrete fetches. -/
theorem C3_set_reply_spec_witness :
    (¬ exFetchRead.is_writeback_access ∧ exFetchRead.rw_consistent ∧
      exFetchRead.set_reply = .ok { exFetchRead with m_type := mf_type.READ_REPLY }) ∧
    (¬ exFetchWrite.is_writeback_access ∧ exFetchWrite.rw_consistent ∧
      exFetchWrite.set_reply = .ok { exFetchWrite with m_type := mf_type.WRITE_ACK }) ∧
    (exFetchWrbk.is_writeback_access ∧ exFetchWrbk.set_reply = .error .fail) :=
  ⟨⟨by decide, by decide,
      (C3_set_reply_spec.1 exFetchRead (by decide) (by decide)).1 rfl⟩,
    ⟨by decide, by decide,
      (C3_set_reply_spec.1 exFetchWrite (by decide) (by decide)).2 rfl⟩,
    ⟨by decide, C3_set_reply_spec.2 exFetchWrbk (by decide)⟩⟩

/-- C7: `set_reply()` on a fetch that is already a reply (and is not a
write-back access) is a no-op returning the fetch unchanged, and for every
fetch applying `set_reply` twice yields the same outcome as applying it
once (mem_fetch.hpp lines 40-54: the final `else` branch does nothing). -/
theorem C7_set_reply_idempotent :
    (∀ mf : mem_fetch, ¬ mf.is_writeback_access → mf.is_reply = true →
      mf.set_reply = .ok mf) ∧
    (∀ mf : mem_fetch, mf.set_reply.bind mem_fetch.set_reply = mf.set_reply) := by
  have hreply : ∀ mf : mem_fetch, ¬ mf.is_writeback_access → mf.is_reply = true →
      mf.set_reply = .ok mf := by
    intro mf hwb hr
    unfold mem_fetch.is_writeback_access at hwb
    unfold mem_fetch.is_reply at hr
    unfold mem_fetch.set_reply
    rw [if_neg hwb]
    rcases (by simpa using hr : mf.m_type = mf_type.READ_REPLY ∨
        mf.m_type = mf_type.WRITE_ACK) with h | h <;>
      rw [if_neg (by rw [h]; intro hc; cases hc),
        if_neg (by rw [h]; intro hc; cases hc)]
  refine ⟨hreply, ?_⟩
  intro mf
  by_cases hwb : mf.is_writeback_access
  · have : mf.set_reply = .error .fail := by
      unfold mem_fetch.is_writeback_access at hwb
      unfold mem_fetch.set_reply; rw [if_pos hwb]
    rw [this]; rfl
  · have hwb' : ∀ mf' : mem_fetch, mf'.m_access = mf.m_access →
        ¬ mf'.is_writeback_access := by
      intro mf' hacc
      unfold mem_fetch.is_writeback_access at hwb ⊢
      rw [hacc]; exact hwb
    unfold mem_fetch.is_writeback_access at hwb
    unfold mem_fetch.set_reply
    rw [if_neg hwb]
    by_cases hr : mf.m_type = mf_type.READ_REQUEST
    · rw [if_pos hr]
      by_cases hw : mf.get_is_write
      · rw [if_pos hw]; rfl
      · rw [if_neg hw]
        show mem_fetch.set_reply _ = _
        have := hreply { mf with m_type := mf_type.READ_REPLY } (hwb' _ rfl) (by
          unfold mem_fetch.is_reply; simp)
        rw [this]
    · rw [if_neg hr]
      by_cases hw2 : mf.m_type = mf_type.WRITE_REQUEST
      · rw [if_pos hw2]
        by_cases hw : mf.get_is_write
        · rw [if_pos hw]
          show mem_fetch.set_reply _ = _
          have := hreply { mf with m_type := mf_type.WRITE_ACK } (hwb' _ rfl) (by
            unfold mem_fetch.is_reply; simp)
          rw [this]
        · rw [if_neg hw]; rfl
      · rw [if_neg hw2]
        show mem_fetch.set_reply mf = _
        have : mf.is_reply = true := by
          unfold mem_fetch.is_reply
          cases h : mf.m_type <;> simp_all
        rw [hreply mf hwb this]

/-- Witness for C7: a concrete already-reply fetch and concrete double
application. -/
theorem C7_set_reply_idempotent_witness :
    (¬ ({ exFetchRead with m_type := mf_type.READ_REPLY } : mem_fetch).is_writeback_access ∧
      ({ exFetchRead with m_type := mf_type.READ_REPLY } : mem_fetch).is_reply = true ∧
      ({ exFetchRead with m_type := mf_type.READ_REPLY } : mem_fetch).set_reply =
        .ok { exFetchRead with m_type := mf_type.READ_REPLY }) ∧
    exFetchWrite.set_reply.bind mem_fetch.set_reply = exFetchWrite.set_reply :=
  ⟨⟨by decide, by decide,
      C7_set_reply_idempotent.1 _ (by decide) (by decide)⟩,
    C7_set_reply_idempotent.2 exFetchWrite⟩

/-! ## Part 2: operand collector register-file unit
(src/playground/src/ref/opndcoll_rfu.hpp) -/

/-- `op_t` (opndcoll_rfu.hpp lines 70-165): an operand token.  The collector
unit and warp-instruction pointers are opaque `Nat` handles. -/
structure op_t : Type where
  m_valid : Bool
  m_cu : Nat
  m_warp : Nat
  m_operand : Nat
  m_register : Nat
  m_bank : Nat
  m_shced_id : Nat
  deriving DecidableEq, Repr

/-- `enum alloc_t` (opndcoll_rfu.hpp lines 167-171). -/
inductive alloc_t : Type
  | NO_ALLOC
  | READ_ALLOC
  | WRITE_ALLOC
  deriving DecidableEq, Repr

/-- `allocation_t` (opndcoll_rfu.hpp lines 173-206): the per-bank allocation
record of the arbiter. -/
structure allocation_t : Type where
  m_allocation : alloc_t
  m_op : op_t
  deriving DecidableEq, Repr

namespace allocation_t

/-- `allocation_t::is_read`. -/
def is_read (a : allocation_t) : Bool := a.m_allocation = alloc_t.READ_ALLOC

/-- `allocation_t::is_write`. -/
def is_write (a : allocation_t) : Bool := a.m_allocation = alloc_t.WRITE_ALLOC

/-- `allocation_t::is_free`. -/
def is_free (a : allocation_t) : Bool := a.m_allocation = alloc_t.NO_ALLOC

/-- `allocation_t::alloc_read` (lines 191-195): `assert(is_free())`, then the
bank becomes read-allocated by `op`. -/
def alloc_read (a : allocation_t) (op : op_t) : Except AssertFail allocation_t :=
  if a.is_free then .ok { m_allocation := alloc_t.READ_ALLOC, m_op := op }
  else .error .fail

/-- `allocation_t::alloc_write` (lines 196-200). -/
def alloc_write (a : allocation_t) (op : op_t) : Except AssertFail allocation_t :=
  if a.is_free then .ok { m_allocation := alloc_t.WRITE_ALLOC, m_op := op }
  else .error .fail

/-- `allocation_t::reset` (line 201): only `m_allocation` is cleared. -/
def reset (a : allocation_t) : allocation_t :=
  { a with m_allocation := alloc_t.NO_ALLOC }

end allocation_t

/-- One allocation call made on the arbiter's bank table during a cycle:
either `allocate_for_read(bank, op)` (issued by `allocate_reads`) or
`allocate_bank_for_write(bank, op)` (issued by `writeback`/`allocate_cu`). -/
inductive bank_req : Type
  | read (bank : Nat) (op : op_t)
  | write (bank : Nat) (op : op_t)
  deriving DecidableEq, Repr

/-- The bank a request targets. -/
def bank_req.bank : bank_req → Nat
  | .read b _ => b
  | .write b _ => b

/-- The allocation record a successful request installs. -/
def bank_req.allocated : bank_req → allocation_t
  | .read _ op => { m_allocation := alloc_t.READ_ALLOC, m_op := op }
  | .write _ op => { m_allocation := alloc_t.WRITE_ALLOC, m_op := op }

/-- `arbiter_t::allocate_for_read` / `allocate_bank_for_write`
(opndcoll_rfu.hpp lines 275-282): `assert(bank < m_num_banks)`, then
`m_allocated_bank[bank].alloc_read/alloc_write(op)`.  The bank table
`m_allocated_bank` is the list. -/
def apply_bank_req (banks : List allocation_t) (r : bank_req) :
    Except AssertFail (List allocation_t) :=
  match r with
  | .read b op =>
    if h : b < banks.length then
      match (banks.get ⟨b, h⟩).alloc_read op with
      | .ok a => .ok (banks.set b a)
      | .error e => .error e
    else .error .fail
  | .write b op =>
    if h : b < banks.length then
      match (banks.get ⟨b, h⟩).alloc_write op with
      | .ok a => .ok (banks.set b a)
      | .error e => .error e
    else .error .fail

/-- The allocation calls of one cycle applied in order. -/
def apply_bank_reqs (reqs : List bank_req) (banks : List allocation_t) :
    Except AssertFail (List allocation_t) :=
  reqs.foldlM apply_bank_req banks

/-- `arbiter_t::reset_alloction` (lines 283-286): every bank is reset. -/
def reset_alloction (banks : List allocation_t) : List allocation_t :=
  banks.map allocation_t.reset

/-- The effect of `opndcoll_rfu_t::step` (opndcoll_rfu.hpp lines 39-45) on
the arbiter's bank-allocation table: `dispatch_ready_cu`, `allocate_reads`
and `allocate_cu` (whose bodies live in opndcoll_rfu.cc, outside the given
sources) perform a sequence of arbiter allocation calls, abstracted here as
the request list `reqs`; the final phase `process_banks` (line 60) is
exactly `m_arbiter.reset_alloction()`. -/
def step_bank_effects (reqs : List bank_req) (banks : List allocation_t) :
    Except AssertFail (List allocation_t) := do
  let b ← apply_bank_reqs reqs banks
  pure (reset_alloction b)

/-- Requests in `reqs` that target bank `b`. -/
def reqs_on (reqs : List bank_req) (b : Nat) : List bank_req :=
  reqs.filter (fun r => r.bank = b)

/-- Whether bank `b` of the table is present and free. -/
def bank_free (banks : List allocation_t) (b : Nat) : Bool :=
  (banks[b]?.map allocation_t.is_free).getD false

theorem apply_bank_req_ok (banks banks' : List allocation_t) (r : bank_req)
    (h : apply_bank_req banks r = .ok banks') :
    bank_free banks r.bank = true ∧ banks' = banks.set r.bank r.allocated := by
  match r with
  | .read b op =>
    simp only [apply_bank_req] at h
    simp only [bank_req.bank, bank_req.allocated]
    by_cases hb : b < banks.length
    · rw [dif_pos hb] at h
      unfold allocation_t.alloc_read at h
      by_cases hf : (banks.get ⟨b, hb⟩).is_free = true
      · rw [if_pos hf] at h
        cases h
        refine ⟨?_, rfl⟩
        unfold bank_free
        rw [show banks[b]? = some (banks.get ⟨b, hb⟩) by
          rw [List.getElem?_eq_getElem hb, List.get_eq_getElem]]
        simpa using hf
      · rw [if_neg hf] at h
        cases h
    · rw [dif_neg hb] at h
      cases h
  | .write b op =>
    simp only [apply_bank_req] at h
    simp only [bank_req.bank, bank_req.allocated]
    by_cases hb : b < banks.length
    · rw [dif_pos hb] at h
      unfold allocation_t.alloc_write at h
      by_cases hf : (banks.get ⟨b, hb⟩).is_free = true
      · rw [if_pos hf] at h
        cases h
        refine ⟨?_, rfl⟩
        unfold bank_free
        rw [show banks[b]? = some (banks.get ⟨b, hb⟩) by
          rw [List.getElem?_eq_getElem hb, List.get_eq_getElem]]
        simpa using hf
      · rw [if_neg hf] at h
        cases h
    · rw [dif_neg hb] at h
      cases h

theorem apply_bank_reqs_count (reqs : List bank_req) :
    ∀ (banks banks' : List allocation_t),
      apply_bank_reqs reqs banks = .ok banks' →
      ∀ b, (reqs_on reqs b).length ≤ (if bank_free banks b then 1 else 0) := by
  induction reqs with
  | nil =>
    intro banks banks' _ b
    simp [reqs_on]
  | cons r rest ih =>
    intro banks banks' h b
    unfold apply_bank_reqs at h
    simp only [List.foldlM_cons] at h
    cases hr : apply_bank_req banks r with
    | error e => rw [hr] at h; simp [bind, Except.bind] at h
    | ok banks₁ =>
      rw [hr] at h
      simp only [bind, Except.bind] at h
      obtain ⟨hfree, hset⟩ := apply_bank_req_ok banks banks₁ r hr
      have hblt : r.bank < banks.length := by
        unfold bank_free at hfree
        by_contra hc
        rw [List.getElem?_eq_none (by omega)] at hfree
        simp at hfree
      have hrest := ih banks₁ banks' h
      by_cases hb : r.bank = b
      · subst hb
        have hnotfree : bank_free banks₁ r.bank = false := by
          unfold bank_free
          rw [hset, List.getElem?_set_self hblt]
          cases r <;> simp [bank_req.allocated, allocation_t.is_free, bank_req.bank]
        have h0 := hrest r.bank
        rw [hnotfree] at h0
        simp only [if_neg Bool.false_ne_true] at h0
        have hcons : reqs_on (r :: rest) r.bank = r :: reqs_on rest r.bank := by
          unfold reqs_on
          rw [List.filter_cons_of_pos (by simp)]
        rw [hcons, List.length_cons, Nat.le_zero.mp h0]
        rw [if_pos hfree]
      · have hsame : bank_free banks₁ b = bank_free banks b := by
          unfold bank_free
          rw [hset, List.getElem?_set_ne hb]
        have hskip : reqs_on (r :: rest) b = reqs_on rest b := by
          unfold reqs_on
          rw [List.filter_cons_of_neg (by simp [hb])]
        rw [hskip]
        have h0 := hrest b
        rw [hsame] at h0
        exact h0

/-- C2: starting from a fully-reset bank table (the state right after the
previous cycle's `reset_alloction`), every successful execution of the bank
allocations of one `opndcoll_rfu_t::step` gives each bank at most one
allocation — one read or one write, never both and never two of the same
kind (the `assert(is_free())` in `alloc_read`/`alloc_write` otherwise
aborts) — and the step ends with `process_banks` resetting every bank's
allocation to free, so no allocation survives into the next cycle. -/
theorem C2_bank_exclusivity (reqs : List bank_req)
    (banks banks' : List allocation_t)
    (hfree : ∀ a ∈ banks, a.is_free = true)
    (hstep : step_bank_effects reqs banks = .ok banks') :
    (∀ b, (reqs_on reqs b).length ≤ 1) ∧
      (∀ a ∈ banks', a.is_free = true) := by
  unfold step_bank_effects at hstep
  cases happ : apply_bank_reqs reqs banks with
  | error e => rw [happ] at hstep; simp [bind, Except.bind] at hstep
  | ok banks₁ =>
    rw [happ] at hstep
    simp only [bind, Except.bind, pure, Except.pure] at hstep
    have hb' : banks' = reset_alloction banks₁ := by cases hstep; rfl
    constructor
    · intro b
      have := apply_bank_reqs_count reqs banks banks₁ happ b
      by_cases hfb : bank_free banks b
      · rw [if_pos hfb] at this; exact this
      · rw [if_neg hfb] at this; omega
    · intro a ha
      rw [hb'] at ha
      unfold reset_alloction at ha
      obtain ⟨x, _, hx⟩ := List.mem_map.mp ha
      rw [← hx]
      simp [allocation_t.reset, allocation_t.is_free]

instance : Inhabited op_t :=
  ⟨{ m_valid := false, m_cu := 0, m_warp := 0, m_operand := 0,
     m_register := 0, m_bank := 0, m_shced_id := 0 }⟩

/-- A concrete free bank table of four banks. -/
def exBanks : List allocation_t :=
  List.replicate 4 { m_allocation := alloc_t.NO_ALLOC, m_op := default }

/-- The read operand granted to bank 0 in the concrete cycle. -/
def exOp0 : op_t :=
  { (default : op_t) with m_valid := true, m_register := 4, m_bank := 0 }

/-- The write operand granted to bank 2 in the concrete cycle. -/
def exOp2 : op_t :=
  { (default : op_t) with m_valid := true, m_register := 6, m_bank := 2 }

/-- A concrete cycle: one read on bank 0, one write on bank 2. -/
def exReqs : List bank_req :=
  [ .read 0 exOp0, .write 2 exOp2 ]

/-- The bank table that the concrete cycle leaves behind: every bank free. -/
def exBanksAfter : List allocation_t :=
  [ { m_allocation := alloc_t.NO_ALLOC, m_op := exOp0 },
    { m_allocation := alloc_t.NO_ALLOC, m_op := default },
    { m_allocation := alloc_t.NO_ALLOC, m_op := exOp2 },
    { m_allocation := alloc_t.NO_ALLOC, m_op := default } ]

/-- Witness for C2 at the concrete bank table and request list. -/
theorem C2_bank_exclusivity_witness :
    (∀ a ∈ exBanks, a.is_free = true) ∧
      step_bank_effects exReqs exBanks = .ok exBanksAfter ∧
      (∀ b, (reqs_on exReqs b).length ≤ 1) ∧
      (∀ a ∈ exBanksAfter, a.is_free = true) :=
  ⟨by decide, rfl,
    (C2_bank_exclusivity exReqs exBanks exBanksAfter (by decide) rfl).1,
    (C2_bank_exclusivity exReqs exBanks exBanksAfter (by decide) rfl).2⟩

/-! ### Collector units (opndcoll_rfu.hpp lines 317-372) -/

/-- `collector_unit_t`: the staging slot that gathers a warp instruction's
operands.  `m_warp` is `none` for the NULL/empty instruction;
`m_output_register` and `m_src_op` entries are opaque handles; `m_not_ready`
is the `std::bitset<MAX_REG_OPERANDS * 2>` as a list of bits. -/
structure collector_unit_t : Type where
  m_free : Bool
  m_cuid : Nat
  m_warp_id : Nat
  m_warp : Option Nat
  m_output_register : Nat
  m_src_op : List op_t
  m_not_ready : List Bool
  m_num_banks : Nat
  m_bank_warp_shift : Nat
  m_num_banks_per_sched : Nat
  m_sub_core_model : Bool
  m_reg_id : Nat
  deriving DecidableEq, Repr

namespace collector_unit_t

/-- `collector_unit_t::collect_operand` (opndcoll_rfu.hpp line 351):
`m_not_ready.reset(op)` — bit `op` is cleared, nothing else changes. -/
def collect_operand (cu : collector_unit_t) (op : Nat) : collector_unit_t :=
  { cu with m_not_ready := cu.m_not_ready.set op false }

/-- Modelled from the spec: `collector_unit_t::dispatch` — its body lives in
opndcoll_rfu.cc, which is not among the given sources.  Per the spec, at
dispatch the unit hands its instruction to the output register and returns
to the free state ("transition its state to free"), and the `not_ready`
mask "is reset to all-zero exactly once at dispatch" (data-model invariant:
free ⇔ warp_inst empty ⇔ not_ready all-zero). -/
def dispatch (cu : collector_unit_t) : collector_unit_t :=
  { cu with
    m_free := true
    m_warp := none
    m_not_ready := List.replicate cu.m_not_ready.length false }

end collector_unit_t

/-- C8: between allocate and dispatch, a collector unit's `not_ready` mask
is non-increasing bitwise: `collect_operand(op)` clears exactly bit `op` of
the mask and modifies no other collector-unit state, and the mask is reset
to all-zero (only) at dispatch, which also frees the unit. -/
theorem C8_cu_not_ready_monotonic :
    (∀ (cu : collector_unit_t) (op : Nat),
      cu.collect_operand op =
        { cu with m_not_ready := cu.m_not_ready.set op false }) ∧
    (∀ (cu : collector_unit_t) (op i : Nat),
      (cu.collect_operand op).m_not_ready.getD i false = true →
        cu.m_not_ready.getD i false = true) ∧
    (∀ (cu : collector_unit_t) (i : Nat),
      cu.dispatch.m_not_ready.getD i false = false) ∧
    (∀ cu : collector_unit_t, cu.dispatch.m_free = true ∧ cu.dispatch.m_warp = none) := by
  refine ⟨fun cu op => rfl, ?_, ?_, fun cu => ⟨rfl, rfl⟩⟩
  · intro cu op i h
    unfold collector_unit_t.collect_operand at h
    simp only [List.getD, List.get?_eq_getElem?] at h ⊢
    by_cases hio : op = i
    · subst hio
      by_cases hlt : op < cu.m_not_ready.length
      · rw [List.getElem?_set_self hlt] at h
        simp at h
      · rw [List.getElem?_set_self' (a := false)] at h
        rw [List.getElem?_eq_none (by omega)] at h
        simp at h
    · rwa [List.getElem?_set_ne hio] at h
  · intro cu i
    unfold collector_unit_t.dispatch
    simp only [List.getD, List.get?_eq_getElem?]
    by_cases hlt : i < cu.m_not_ready.length
    · rw [List.getElem?_eq_getElem (by simpa using hlt)]
      simp
    · rw [List.getElem?_eq_none (by simpa using hlt)]
      simp

/-! ### Dispatch units (opndcoll_rfu.hpp lines 374-410) -/

/-- `dispatch_unit_t` state.  The vector of collector units it scans is
abstracted by the `ready` oracle passed to `find_ready` (the body of
`collector_unit_t::ready()` is in opndcoll_rfu.cc, outside the sources). -/
structure dispatch_unit_t : Type where
  m_num_collectors : Nat
  m_last_cu : Nat
  m_next_cu : Nat
  m_sub_core_model : Bool
  m_num_warp_scheds : Nat
  deriving DecidableEq, Repr

namespace dispatch_unit_t

/-- The loop of `find_ready`: try `n = n₀, n₀+1, ...` while fewer than `k`
candidates remain, returning the first `c = (last + n + inc) % N` with
`ready c`. -/
def scan_first (ready : Nat → Bool) (N last inc : Nat) : Nat → Nat → Option Nat
  | _, 0 => none
  | n, k + 1 =>
    let c := (last + n + inc) % N
    if ready c then some c else scan_first ready N last inc (n + 1) k

/-- The rotation seed of `find_ready` (opndcoll_rfu.hpp lines 390-392):
`cusPerSched = m_num_collectors / m_num_warp_scheds`, and `rr_increment` is
`cusPerSched - (m_last_cu % cusPerSched)` in sub-core mode, else 1. -/
def rr_inc (du : dispatch_unit_t) : Nat :=
  if du.m_sub_core_model then
    du.m_num_collectors / du.m_num_warp_scheds -
      du.m_last_cu % (du.m_num_collectors / du.m_num_warp_scheds)
  else 1

/-- `dispatch_unit_t::find_ready` (opndcoll_rfu.hpp lines 387-401).
Returns the granted collector-unit index (NULL becomes `none`) and the
updated dispatch unit (`m_last_cu` records the winner). -/
def find_ready (du : dispatch_unit_t) (ready : Nat → Bool) :
    Option Nat × dispatch_unit_t :=
  match scan_first ready du.m_num_collectors du.m_last_cu du.rr_inc 0
      du.m_num_collectors with
  | some c => (some c, { du with m_last_cu := c })
  | none => (none, du)

theorem scan_first_some (ready : Nat → Bool) (N last inc : Nat) :
    ∀ (k n c : Nat), scan_first ready N last inc n k = some c →
      ∃ j, n ≤ j ∧ j < n + k ∧ c = (last + j + inc) % N ∧ ready c = true ∧
        ∀ m, n ≤ m → m < j → ready ((last + m + inc) % N) = false := by
  intro k
  induction k with
  | zero => intro n c h; simp [scan_first] at h
  | succ k ih =>
    intro n c h
    unfold scan_first at h
    by_cases hr : ready ((last + n + inc) % N) = true
    · rw [if_pos hr] at h
      cases h
      exact ⟨n, le_refl n, by omega, rfl, hr, fun m h1 h2 => absurd h2 (by omega)⟩
    · rw [if_neg hr] at h
      obtain ⟨j, hj1, hj2, hj3, hj4, hj5⟩ := ih (n + 1) c h
      refine ⟨j, by omega, by omega, hj3, hj4, ?_⟩
      intro m hm1 hm2
      by_cases hmn : m = n
      · subst hmn; simpa using hr
      · exact hj5 m (by omega) hm2

theorem scan_first_none (ready : Nat → Bool) (N last inc : Nat) :
    ∀ (k n : Nat), scan_first ready N last inc n k = none ↔
      ∀ j, n ≤ j → j < n + k → ready ((last + j + inc) % N) = false := by
  intro k
  induction k with
  | zero =>
    intro n
    constructor
    · intro _ j h1 h2; omega
    · intro _; simp [scan_first]
  | succ k ih =>
    intro n
    unfold scan_first
    by_cases hr : ready ((last + n + inc) % N) = true
    · rw [if_pos hr]
      constructor
      · intro h; cases h
      · intro h
        have := h n (le_refl n) (by omega)
        rw [hr] at this
        cases this
    · rw [if_neg hr]
      rw [ih (n + 1)]
      constructor
      · intro h j h1 h2
        by_cases hjn : j = n
        · subst hjn; simpa using hr
        · exact h j (by omega) (by omega)
      · intro h j h1 h2
        exact h j (by omega) (by omega)

/-- For `0 < N`, every collector index below `N` is hit by the rotation
`j ↦ (last + j + inc) % N` for some `j < N`. -/
theorem rotation_surjective (N last inc : Nat) (hN : 0 < N) (c : Nat) (hc : c < N) :
    ∃ j, j < N ∧ (last + j + inc) % N = c := by
  set b := (last + inc) % N with hb
  have hbN : b < N := Nat.mod_lt _ hN
  have hmod : ∀ j, j < N → (last + j + inc) % N = (b + j) % N := by
    intro j hj
    rw [show last + j + inc = (last + inc) + j by ring, Nat.add_mod, ← hb,
      Nat.mod_eq_of_lt hj]
  by_cases hbc : b ≤ c
  · refine ⟨c - b, by omega, ?_⟩
    rw [hmod _ (by omega), show b + (c - b) = c by omega, Nat.mod_eq_of_lt hc]
  · refine ⟨c + N - b, by omega, ?_⟩
    rw [hmod _ (by omega), show b + (c + N - b) = c + N by omega,
      Nat.add_mod_right, Nat.mod_eq_of_lt hc]

end dispatch_unit_t

/-- C4: `dispatch_unit_t::find_ready` scans the `N` collector units in the
cyclic order `c = (last_cu + n + inc) % N`, `n = 0, .., N-1`, with
`inc = cusPerSched - last_cu % cusPerSched` in sub-core mode and `inc = 1`
otherwise; it returns the first unit in that order whose `ready()` holds,
recording it as the new `last_cu`, and returns NULL (`none`) iff no unit is
ready.  Hypotheses: at least one warp scheduler and at least one collector
unit per scheduler (otherwise the C++ divides or takes a modulus by zero). -/
theorem C4_find_ready_spec (du : dispatch_unit_t) (ready : Nat → Bool)
    (hsched : 0 < du.m_num_warp_scheds)
    (hcus : du.m_num_warp_scheds ≤ du.m_num_collectors) :
    (∀ c, (du.find_ready ready).1 = some c →
      ∃ n, n < du.m_num_collectors ∧
        c = (du.m_last_cu + n + du.rr_inc) % du.m_num_collectors ∧
        ready c = true ∧
        (∀ m, m < n →
          ready ((du.m_last_cu + m + du.rr_inc) % du.m_num_collectors) = false) ∧
        (du.find_ready ready).2 = { du with m_last_cu := c }) ∧
    ((du.find_ready ready).1 = none ↔
      ∀ c, c < du.m_num_collectors → ready c = false) := by
  have hN : 0 < du.m_num_collectors := lt_of_lt_of_le hsched hcus
  constructor
  · intro c hc
    unfold dispatch_unit_t.find_ready at hc ⊢
    cases hscan : dispatch_unit_t.scan_first ready du.m_num_collectors
        du.m_last_cu du.rr_inc 0 du.m_num_collectors with
    | none =>
      rw [hscan] at hc
      exact absurd (show (none : Option Nat) = some c from hc) (by simp)
    | some c0 =>
      rw [hscan] at hc
      have hcc : c0 = c := by
        have : (some c0 : Option Nat) = some c := hc
        cases this; rfl
      subst hcc
      obtain ⟨j, _, hj2, hj3, hj4, hj5⟩ :=
        dispatch_unit_t.scan_first_some ready du.m_num_collectors du.m_last_cu
          du.rr_inc du.m_num_collectors 0 c0 hscan
      exact ⟨j, by omega, hj3, hj4, fun m hm => hj5 m (Nat.zero_le m) hm, rfl⟩
  · unfold dispatch_unit_t.find_ready
    cases hscan : dispatch_unit_t.scan_first ready du.m_num_collectors
        du.m_last_cu du.rr_inc 0 du.m_num_collectors with
    | none =>
      refine ⟨fun _ => ?_, fun _ => rfl⟩
      intro c hc
      obtain ⟨j, hj1, hj2⟩ :=
        dispatch_unit_t.rotation_surjective du.m_num_collectors du.m_last_cu
          du.rr_inc hN c hc
      have := (dispatch_unit_t.scan_first_none ready du.m_num_collectors
        du.m_last_cu du.rr_inc du.m_num_collectors 0).mp hscan
      rw [← hj2]
      exact this j (Nat.zero_le j) (by omega)
    | some c0 =>
      refine ⟨fun h => ?_, fun hall => ?_⟩
      · exact absurd (show (some c0 : Option Nat) = none from h) (by simp)
      · obtain ⟨j, _, hj2, hj3, hj4, _⟩ :=
          dispatch_unit_t.scan_first_some ready du.m_num_collectors du.m_last_cu
            du.rr_inc du.m_num_collectors 0 c0 hscan
        have hlt : c0 < du.m_num_collectors := by
          rw [hj3]; exact Nat.mod_lt _ hN
        rw [hall c0 hlt] at hj4
        cases hj4

/-- Witness for C4: sub-core mode, four collector units, two schedulers,
`last_cu = 1`, only unit 0 ready: the scan order is 2, 3, 0, 1 and unit 0
is granted. -/
theorem C4_find_ready_spec_witness :
    (0 < (⟨4, 1, 0, true, 2⟩ : dispatch_unit_t).m_num_warp_scheds ∧
      (⟨4, 1, 0, true, 2⟩ : dispatch_unit_t).m_num_warp_scheds ≤
        (⟨4, 1, 0, true, 2⟩ : dispatch_unit_t).m_num_collectors) ∧
    (((⟨4, 1, 0, true, 2⟩ : dispatch_unit_t).find_ready (fun c => c = 0)).1 =
        none ↔
      ∀ c, c < (⟨4, 1, 0, true, 2⟩ : dispatch_unit_t).m_num_collectors →
        (fun c : Nat => decide (c = 0)) c = false) :=
  ⟨⟨by decide, by decide⟩,
    (C4_find_ready_spec (⟨4, 1, 0, true, 2⟩ : dispatch_unit_t)
      (fun c => c = 0) (by decide) (by decide)).2⟩

/-! ## Part 3: the accelsim bridge driver
(src/playground/src/ref/bridge/main.cc) -/

/-- `command_type` of a trace command.  The enum itself is declared by the
trace parser (not among the given sources); the driver distinguishes
`cpu_gpu_mem_copy`, `kernel_launch`, and treats every other value as an
undefined command (main.cc lines 387, 396, 406-409). -/
inductive command_type : Type
  | cpu_gpu_mem_copy
  | kernel_launch
  | other
  deriving DecidableEq, Repr

/-- `trace_command`: one line of the command trace. -/
structure trace_command : Type where
  m_type : command_type
  command_string : String
  deriving DecidableEq, Repr

/-- `trace_kernel_info_t` as the bridge uses it: uid, CUDA stream id, the
launched flag, and the originating command string. -/
structure kernel_info : Type where
  uid : Nat
  stream_id : Nat
  launched : Bool
  name : String
  deriving DecidableEq, Repr

/-- The performance model (`trace_gpgpu_sim_bridge`), an external
collaborator of the driver: the driver only calls these member functions.
`γ` is the (opaque) GPU state. -/
structure GpuModel (γ : Type) : Type where
  active : γ → Bool
  finished_kernel : γ → Nat
  limit_hit : γ → Bool
  do_cycle : γ → γ
  stop_all_running_kernels : γ → γ
  can_start_kernel : γ → Bool
  launch : γ → kernel_info → γ
  perf_memcpy_to_gpu : γ → Nat → Nat → γ
  gpu_sim_cycle : γ → Nat
  update_stats : γ → γ

/-- The trace parser (`trace_parser`), an external collaborator:
`parse_memcpy_info` yields `(addr, byte_count)`; `mk_kernel` stands for
`parse_kernel_info` followed by `create_kernel_info`. -/
structure TraceModel : Type where
  parse_memcpy_info : String → Nat × Nat
  mk_kernel : String → kernel_info

/-- The state of an `accelsim_bridge` (main.cc lines 309-368), plus the
lines it prints (`output`) — only the completion notices are recorded. -/
structure accelsim_bridge (γ : Type) : Type where
  gpu : γ
  commandlist : List trace_command
  command_idx : Nat
  window_size : Nat
  kernels_info : List kernel_info
  busy_streams : List Nat
  silent : Bool
  output : List String

/-- `accelsim_bridge::commands_left` (the original loop guard, main.cc line
498/171: `i < commandlist.size()`). -/
def commands_left {γ : Type} (st : accelsim_bridge γ) : Prop :=
  st.command_idx < st.commandlist.length

/-- `accelsim_bridge::kernels_left` (`!kernels_info.empty()`). -/
def kernels_left {γ : Type} (st : accelsim_bridge γ) : Prop :=
  st.kernels_info ≠ []

instance {γ : Type} (st : accelsim_bridge γ) : Decidable (commands_left st) := by
  unfold commands_left; infer_instance

instance {γ : Type} (st : accelsim_bridge γ) : Decidable (kernels_left st) := by
  unfold kernels_left; infer_instance

/-- `accelsim_bridge::process_commands` (main.cc lines 380-411): consume
commands in order while the kernel window has room and commands remain; a
memcpy is forwarded to `perf_memcpy_to_gpu(addr, bytes)`, a kernel launch
appends one `kernel_info` to the window, anything else throws
`std::runtime_error("undefined command")`. -/
def process_commands {γ : Type} (T : TraceModel) (G : GpuModel γ)
    (st : accelsim_bridge γ) : Except String (accelsim_bridge γ) :=
  if h : st.kernels_info.length < st.window_size ∧
      st.command_idx < st.commandlist.length then
    let cmd := st.commandlist.get ⟨st.command_idx, h.2⟩
    match cmd.m_type with
    | .cpu_gpu_mem_copy =>
      let addre := (T.parse_memcpy_info cmd.command_string).1
      let bcount := (T.parse_memcpy_info cmd.command_string).2
      process_commands T G
        { st with
          gpu := G.perf_memcpy_to_gpu st.gpu addre bcount
          command_idx := st.command_idx + 1 }
    | .kernel_launch =>
      process_commands T G
        { st with
          kernels_info := st.kernels_info ++ [T.mk_kernel cmd.command_string]
          command_idx := st.command_idx + 1 }
    | .other => .error "undefined command"
  else
    .ok st
termination_by st.commandlist.length - st.command_idx
decreasing_by
  · omega
  · omega

/-- The body of `accelsim_bridge::launch_kernels` (main.cc lines 415-430):
walk the window in order; a kernel whose stream is not busy, while the GPU
can start a kernel and it was not launched yet, is launched, marked
launched in place, and its stream becomes busy. -/
def launch_kernels_go {γ : Type} (G : GpuModel γ) :
    List kernel_info → γ → List Nat → List kernel_info × γ × List Nat
  | [], gpu, busy => ([], gpu, busy)
  | k :: rest, gpu, busy =>
    let stream_busy := busy.contains k.stream_id
    if ¬ stream_busy ∧ G.can_start_kernel gpu ∧ ¬ k.launched then
      let r := launch_kernels_go G rest (G.launch gpu k) (busy ++ [k.stream_id])
      ({ k with launched := true } :: r.1, r.2)
    else
      let r := launch_kernels_go G rest gpu busy
      (k :: r.1, r.2)

/-- `accelsim_bridge::launch_kernels`. -/
def launch_kernels {γ : Type} (G : GpuModel γ) (st : accelsim_bridge γ) :
    accelsim_bridge γ :=
  let r := launch_kernels_go G st.kernels_info st.gpu st.busy_streams
  { st with kernels_info := r.1, gpu := r.2.1, busy_streams := r.2.2 }

/-- `accelsim_bridge::cycle` (main.cc lines 432-457): if the GPU is active,
run one performance-model cycle and the deadlock check (folded into
`do_cycle`); otherwise, if the cycle/instruction cap was hit, stop all
running kernels. -/
def bridge_cycle {γ : Type} (G : GpuModel γ) (st : accelsim_bridge γ) :
    accelsim_bridge γ :=
  if G.active st.gpu then { st with gpu := G.do_cycle st.gpu }
  else if G.limit_hit st.gpu then
    { st with gpu := G.stop_all_running_kernels st.gpu }
  else st

/-- The inner do-loop of `run_to_completion` (main.cc lines 532-546):
`finished_kernel_uid = 0; do { if (!active()) break; cycle(); uid =
get_finished_kernel_uid(); if (uid) break; } while (true)`.  `none` means
the fuel ran out while the C++ loop is still spinning. -/
def inner_loop {γ : Type} (G : GpuModel γ) :
    Nat → accelsim_bridge γ → Option (accelsim_bridge γ × Nat)
  | 0, _ => none
  | fuel + 1, st =>
    if ¬ G.active st.gpu then some (st, 0)
    else
      let st' := bridge_cycle G st
      let uid := G.finished_kernel st'.gpu
      if uid ≠ 0 then some (st', uid) else inner_loop G fuel st'

/-- The kernel-removal loop of `cleanup_finished_kernel` (main.cc lines
464-482): `for (j = 0; j < kernels_info.size(); j++)`, examining
`kernels_info.at(j)` (tracked as `k`), removing matching kernels (their
stream is erased from `busy_streams`, the kernel erased from the window),
and breaking early unless the cap was hit or the GPU went inactive.
`j` is incremented even after an erase, exactly as in the source.  The
loop performs at most `kernels_info.size()` iterations (`j` grows by one
per iteration and the list never grows), so it is given exactly that as
structurally decreasing fuel; with that fuel the base case returns the same
state the loop exit returns. -/
def cleanup_loop {γ : Type} (G : GpuModel γ) (gpu : γ) (uid : Nat) :
    Nat → Nat → List kernel_info → List Nat → Option kernel_info →
      List kernel_info × List Nat × Option kernel_info
  | 0, _, ks, busy, k => (ks, busy, k)
  | fuel + 1, j, ks, busy, k =>
    if h : j < ks.length then
      let kj := ks.get ⟨j, h⟩
      if kj.uid = uid ∨ G.limit_hit gpu = true ∨ ¬ G.active gpu = true then
        let busy' := busy.erase kj.stream_id
        let ks' := ks.eraseIdx j
        if ¬ G.limit_hit gpu = true ∧ G.active gpu = true then
          (ks', busy', some kj)
        else cleanup_loop G gpu uid fuel (j + 1) ks' busy' (some kj)
      else cleanup_loop G gpu uid fuel (j + 1) ks busy (some kj)
    else (ks, busy, k)

/-- `accelsim_bridge::cleanup_finished_kernel` (main.cc lines 459-494).
The `assert(k)` becomes an error when the loop never examined a kernel;
the trailing stats block runs `update_stats` unless silent or no cycle was
simulated. -/
def cleanup_finished_kernel {γ : Type} (G : GpuModel γ)
    (st : accelsim_bridge γ) (uid : Nat) : Except String (accelsim_bridge γ) := do
  let st₁ ←
    if uid ≠ 0 ∨ G.limit_hit st.gpu = true ∨ ¬ G.active st.gpu = true then
      let r := cleanup_loop G st.gpu uid st.kernels_info.length 0
        st.kernels_info st.busy_streams none
      match r.2.2 with
      | none => Except.error "assertion failed: k"
      | some _ =>
        Except.ok { st with kernels_info := r.1, busy_streams := r.2.1 }
    else Except.ok st
  if ¬ st.silent ∧ 0 < G.gpu_sim_cycle st₁.gpu then
    pure { st₁ with gpu := G.update_stats st₁.gpu }
  else
    pure st₁

/-- The notice printed when the cap is reached (main.cc lines 553-555). -/
def max_cycles_notice : String :=
  "GPGPU-Sim: ** break due to reaching the maximum cycles (or instructions) **"

/-- The two lines printed after the outer loop (main.cc lines 563-564). -/
def final_prints {γ : Type} (st : accelsim_bridge γ) : accelsim_bridge γ :=
  { st with output := st.output ++
      ["GPGPU-Sim: *** simulation thread exiting ***",
       "GPGPU-Sim: *** exit detected ***"] }

/-- Result of running the driver to completion: normal return, a thrown
exception, or out of fuel (the C++ is still looping). -/
inductive RunRes (γ : Type) : Type
  | ok (st : accelsim_bridge γ)
  | fatal (msg : String)
  | outOfFuel

/-- `accelsim_bridge::run_to_completion` (main.cc lines 496-566), with fuel
bounding the number of outer-loop iterations and inner-loop cycles. -/
def run_to_completion {γ : Type} (T : TraceModel) (G : GpuModel γ) :
    Nat → accelsim_bridge γ → RunRes γ
  | 0, _ => .outOfFuel
  | fuel + 1, st =>
    if commands_left st ∨ kernels_left st then
      match process_commands T G st with
      | .error e => .fatal e
      | .ok st₁ =>
        let st₂ := launch_kernels G st₁
        match inner_loop G (fuel + 1) st₂ with
        | none => .outOfFuel
        | some (st₃, uid) =>
          match cleanup_finished_kernel G st₃ uid with
          | .error e => .fatal e
          | .ok st₄ =>
            if G.limit_hit st₄.gpu then
              .ok (final_prints
                { st₄ with output := st₄.output ++ [max_cycles_notice] })
            else run_to_completion T G fuel st₄
    else .ok (final_prints st)

/-! ### The CYCLES environment override (main.cc lines 346-352) -/

/-- Whether a character is whitespace for C `atoi` (`isspace` in the "C"
locale). -/
def c_isspace (c : Char) : Bool :=
  c = ' ' ∨ c = '\t' ∨ c = '\n' ∨ c = '\x0b' ∨ c = '\x0c' ∨ c = '\r'

/-- Digit accumulation of C `atoi` (int overflow is not modelled). -/
def atoi_digits : List Char → Nat → Nat
  | [], acc => acc
  | c :: cs, acc =>
    if c.isDigit then atoi_digits cs (acc * 10 + (c.toNat - '0'.toNat))
    else acc

/-- C `atoi`: optional whitespace, optional sign, then a digit prefix
(yielding 0 when there are no digits). -/
def atoi (s : String) : Int :=
  match s.toList.dropWhile c_isspace with
  | '-' :: rest => - (atoi_digits rest 0 : Int)
  | '+' :: rest => (atoi_digits rest 0 : Int)
  | cs => (atoi_digits cs 0 : Int)

/-- The bridge constructor's cap configuration (main.cc lines 349-352):
`gpu_max_cycle_opt = (unsigned long long)-1; if (getenv("CYCLES") &&
atoi(getenv("CYCLES")) > 0) gpu_max_cycle_opt = atoi(getenv("CYCLES"))`. -/
def init_gpu_max_cycle_opt (cycles_env : Option String) : Nat :=
  match cycles_env with
  | some s => if 0 < atoi s then (atoi s).toNat else 2 ^ 64 - 1
  | none => 2 ^ 64 - 1

/-! ### Claims C5 and C6 -/

theorem process_commands_post_aux {γ : Type} (T : TraceModel) (G : GpuModel γ) :
    ∀ (k : Nat) (st st' : accelsim_bridge γ),
      st.commandlist.length - st.command_idx ≤ k →
      process_commands T G st = .ok st' →
      ¬ (st'.kernels_info.length < st'.window_size ∧
          st'.command_idx < st'.commandlist.length) ∧
        st'.commandlist = st.commandlist ∧
        st'.window_size = st.window_size ∧
        st.command_idx ≤ st'.command_idx := by
  intro k
  induction k with
  | zero =>
    intro st st' hk h
    have hge : st.commandlist.length ≤ st.command_idx := by omega
    rw [process_commands] at h
    rw [dif_neg (by omega)] at h
    cases h
    exact ⟨by omega, rfl, rfl, le_refl _⟩
  | succ k ih =>
    intro st st' hk h
    rw [process_commands] at h
    by_cases hg : st.kernels_info.length < st.window_size ∧
        st.command_idx < st.commandlist.length
    · rw [dif_pos hg] at h
      cases hcm : (st.commandlist.get ⟨st.command_idx, hg.2⟩).m_type with
      | cpu_gpu_mem_copy =>
        simp only [hcm] at h
        have := ih _ st' (by simp only; omega) h
        exact ⟨this.1, this.2.1, this.2.2.1, Nat.le_of_succ_le this.2.2.2⟩
      | kernel_launch =>
        simp only [hcm] at h
        have := ih _ st' (by simp only; omega) h
        exact ⟨this.1, this.2.1, this.2.2.1, Nat.le_of_succ_le this.2.2.2⟩
      | other =>
        simp only [hcm] at h
        cases h
    · rw [dif_neg hg] at h
      cases h
      exact ⟨hg, rfl, rfl, le_refl _⟩

/-- C5: `process_commands` consumes commands strictly in order while the
window holds fewer than `window_size` kernels and commands remain: a
`cpu_gpu_mem_copy` command is forwarded to `perf_memcpy_to_gpu(addr,
bytes)` and does not enter the window, a `kernel_launch` appends exactly
one `kernel_info` to the window, any other command type throws
`runtime_error("undefined command")`; on normal return the window is full
or the command cursor has reached the end of the list. -/
theorem C5_process_commands_spec {γ : Type} (T : TraceModel) (G : GpuModel γ) :
    (∀ (st : accelsim_bridge γ)
      (h1 : st.kernels_info.length < st.window_size)
      (h2 : st.command_idx < st.commandlist.length),
      ((st.commandlist.get ⟨st.command_idx, h2⟩).m_type =
          command_type.cpu_gpu_mem_copy →
        process_commands T G st =
          process_commands T G
            { st with
              gpu := G.perf_memcpy_to_gpu st.gpu
                (T.parse_memcpy_info
                  (st.commandlist.get ⟨st.command_idx, h2⟩).command_string).1
                (T.parse_memcpy_info
                  (st.commandlist.get ⟨st.command_idx, h2⟩).command_string).2
              command_idx := st.command_idx + 1 }) ∧
      ((st.commandlist.get ⟨st.command_idx, h2⟩).m_type =
          command_type.kernel_launch →
        process_commands T G st =
          process_commands T G
            { st with
              kernels_info := st.kernels_info ++
                [T.mk_kernel
                  (st.commandlist.get ⟨st.command_idx, h2⟩).command_string]
              command_idx := st.command_idx + 1 }) ∧
      ((st.commandlist.get ⟨st.command_idx, h2⟩).m_type = command_type.other →
        process_commands T G st = .error "undefined command")) ∧
    (∀ st st' : accelsim_bridge γ, process_commands T G st = .ok st' →
      ¬ (st'.kernels_info.length < st'.window_size ∧
          st'.command_idx < st'.commandlist.length) ∧
        st'.commandlist = st.commandlist ∧
        st'.window_size = st.window_size ∧
        st.command_idx ≤ st'.command_idx) := by
  constructor
  · intro st h1 h2
    refine ⟨?_, ?_, ?_⟩ <;> intro hcm <;>
      (conv_lhs => rw [process_commands]) <;>
      rw [dif_pos ⟨h1, h2⟩] <;>
      simp only [hcm]
  · intro st st' h
    exact process_commands_post_aux T G
      (st.commandlist.length - st.command_idx) st st' (le_refl _) h

/-- The performance model used by the driver witnesses: a GPU that is
inactive and whose cycle cap has been hit. -/
def exGpu : GpuModel Unit :=
  { active := fun _ => false
    finished_kernel := fun _ => 0
    limit_hit := fun _ => true
    do_cycle := id
    stop_all_running_kernels := id
    can_start_kernel := fun _ => false
    launch := fun g _ => g
    perf_memcpy_to_gpu := fun g _ _ => g
    gpu_sim_cycle := fun _ => 0
    update_stats := id }

/-- The trace parser used by the driver witnesses. -/
def exTrace : TraceModel :=
  { parse_memcpy_info := fun _ => (0x7f0000, 1048576)
    mk_kernel := fun s => { uid := 1, stream_id := 0, launched := false, name := s } }

/-- A bridge state whose window is full (one launched kernel, window size
one) and whose command list is exhausted. -/
def exBridgeSt : accelsim_bridge Unit :=
  { gpu := ()
    commandlist := []
    command_idx := 0
    window_size := 1
    kernels_info := [{ uid := 7, stream_id := 3, launched := true, name := "kernel-1" }]
    busy_streams := []
    silent := true
    output := [] }

/-- A bridge state with room in the window and a memcpy command pending. -/
def exBridgeSt2 : accelsim_bridge Unit :=
  { gpu := ()
    commandlist :=
      [{ m_type := command_type.other, command_string := "bad-command" }]
    command_idx := 0
    window_size := 1
    kernels_info := []
    busy_streams := []
    silent := true
    output := [] }

theorem exBridge_pc : process_commands exTrace exGpu exBridgeSt = .ok exBridgeSt := by
  rw [process_commands]
  rw [dif_neg (by decide)]

/-- Witness for C5: the undefined-command branch on a concrete state, and
the normal-return postcondition on a concrete full-window state. -/
theorem C5_process_commands_spec_witness :
    (exBridgeSt2.kernels_info.length < exBridgeSt2.window_size ∧
      exBridgeSt2.command_idx < exBridgeSt2.commandlist.length ∧
      process_commands exTrace exGpu exBridgeSt2 = .error "undefined command") ∧
    (process_commands exTrace exGpu exBridgeSt = .ok exBridgeSt ∧
      ¬ (exBridgeSt.kernels_info.length < exBridgeSt.window_size ∧
          exBridgeSt.command_idx < exBridgeSt.commandlist.length)) :=
  ⟨⟨by decide, by decide,
      ((C5_process_commands_spec exTrace exGpu).1 exBridgeSt2
        (by decide) (by decide)).2.2 rfl⟩,
    ⟨exBridge_pc,
      ((C5_process_commands_spec exTrace exGpu).2 exBridgeSt exBridgeSt
        exBridge_pc).1⟩⟩

/-- C6: the bridge constructor caps the simulated cycles from the `CYCLES`
environment variable — a value parsing (by C `atoi`) to a positive `n`
sets `gpu_max_cycle_opt = n`, anything else (unset, zero, negative) leaves
it unlimited (`(unsigned long long)-1 = 2^64 - 1`); and when the cap is
hit, `run_to_completion` prints the maximum-cycles notice, breaks out of
its outer loop, and returns normally with the exit messages — reaching the
cap is not an error. -/
theorem C6_cycles_cap {γ : Type} (T : TraceModel) (G : GpuModel γ) :
    (∀ (s : String) (n : Nat), atoi s = (n : Int) → 0 < n →
      init_gpu_max_cycle_opt (some s) = n) ∧
    init_gpu_max_cycle_opt none = 2 ^ 64 - 1 ∧
    (∀ s : String, atoi s ≤ 0 →
      init_gpu_max_cycle_opt (some s) = 2 ^ 64 - 1) ∧
    (∀ (fuel : Nat) (st st₁ st₃ st₄ : accelsim_bridge γ) (uid : Nat),
      (commands_left st ∨ kernels_left st) →
      process_commands T G st = .ok st₁ →
      inner_loop G (fuel + 1) (launch_kernels G st₁) = some (st₃, uid) →
      cleanup_finished_kernel G st₃ uid = .ok st₄ →
      G.limit_hit st₄.gpu = true →
      run_to_completion T G (fuel + 1) st =
        .ok (final_prints
          { st₄ with output := st₄.output ++ [max_cycles_notice] })) := by
  refine ⟨?_, rfl, ?_, ?_⟩
  · intro s n hs hn
    show init_gpu_max_cycle_opt (some s) = n
    simp only [init_gpu_max_cycle_opt]
    rw [hs, if_pos (by exact_mod_cast hn)]
    simp
  · intro s hs
    show init_gpu_max_cycle_opt (some s) = 2 ^ 64 - 1
    simp only [init_gpu_max_cycle_opt]
    rw [if_neg (by omega)]
  · intro fuel st st₁ st₃ st₄ uid hguard hpc hinner hclean hlimit
    show run_to_completion T G (fuel + 1) st = _
    rw [run_to_completion]
    rw [if_pos hguard, hpc]
    simp only []
    rw [hinner]
    simp only []
    rw [hclean]
    simp only []
    rw [if_pos hlimit]

/-- The state `cleanup_finished_kernel` leaves behind on `exBridgeSt`: the
kernel was retired from the window. -/
def exCleaned : accelsim_bridge Unit :=
  { exBridgeSt with kernels_info := [] }

/-- Witness for C6: a concrete `CYCLES` value, the unset/zero cases, and a
concrete exhausted-command bridge whose GPU has hit the cap. -/
theorem C6_cycles_cap_witness :
    (atoi "1000" = (1000 : Int) ∧ 0 < (1000 : Nat) ∧
      init_gpu_max_cycle_opt (some "1000") = 1000) ∧
    init_gpu_max_cycle_opt none = 2 ^ 64 - 1 ∧
    (atoi "0" ≤ 0 ∧ init_gpu_max_cycle_opt (some "0") = 2 ^ 64 - 1) ∧
    (kernels_left exBridgeSt ∧
      run_to_completion exTrace exGpu 1 exBridgeSt =
        .ok (final_prints
          { exCleaned with output := exCleaned.output ++ [max_cycles_notice] })) := by
  refine ⟨⟨by decide, by decide,
      (C6_cycles_cap exTrace exGpu).1 "1000" 1000 (by decide) (by decide)⟩,
    (C6_cycles_cap exTrace exGpu).2.1,
    ⟨by decide, (C6_cycles_cap exTrace exGpu).2.2.1 "0" (by decide)⟩,
    ⟨by decide, ?_⟩⟩
  exact (C6_cycles_cap exTrace exGpu).2.2.2 0 exBridgeSt exBridgeSt exBridgeSt
    exCleaned 0 (Or.inr (by decide)) exBridge_pc rfl rfl rfl

/-! ## Part 4: the anynet topology parser
(src/playground/sys/src/ref/intersim2/networks/anynet.cpp, `AnyNet::readFile`)

`std::map<int, ...>` is modelled as an association list sorted by key
(ascending), matching the map's iteration order. -/

/-- Lookup in an ordered association map. -/
def omap_find? {α : Type} : List (Int × α) → Int → Option α
  | [], _ => none
  | (k', v') :: rest, k => if k = k' then some v' else omap_find? rest k

/-- Sorted insert-or-replace in an ordered association map
(`std::map::operator[] = v`). -/
def omap_insert {α : Type} : List (Int × α) → Int → α → List (Int × α)
  | [], k, v => [(k, v)]
  | (k', v') :: rest, k, v =>
    if k < k' then (k, v) :: (k', v') :: rest
    else if k = k' then (k, v) :: rest
    else (k', v') :: omap_insert rest k v

theorem omap_find?_insert_self {α : Type} (m : List (Int × α)) (k : Int) (v : α) :
    omap_find? (omap_insert m k v) k = some v := by
  induction m with
  | nil => simp [omap_insert, omap_find?]
  | cons e rest ih =>
    obtain ⟨k', v'⟩ := e
    unfold omap_insert
    by_cases h1 : k < k'
    · rw [if_pos h1]
      unfold omap_find?
      rw [if_pos rfl]
    · rw [if_neg h1]
      by_cases h2 : k = k'
      · rw [if_pos h2]
        unfold omap_find?
        rw [if_pos rfl]
      · rw [if_neg h2]
        unfold omap_find?
        rw [if_neg h2]
        exact ih

theorem omap_find?_insert_ne {α : Type} (m : List (Int × α)) (k k' : Int) (v : α)
    (h : k' ≠ k) : omap_find? (omap_insert m k v) k' = omap_find? m k' := by
  induction m with
  | nil =>
    unfold omap_insert omap_find?
    rw [if_neg h]
    rfl
  | cons e rest ih =>
    obtain ⟨k0, v0⟩ := e
    unfold omap_insert
    by_cases h1 : k < k0
    · rw [if_pos h1]
      show (if k' = k then some v else omap_find? ((k0, v0) :: rest) k') = _
      rw [if_neg h]
    · rw [if_neg h1]
      by_cases h2 : k = k0
      · rw [if_pos h2]
        subst h2
        unfold omap_find?
        rw [if_neg h, if_neg h]
      · rw [if_neg h2]
        unfold omap_find?
        by_cases h3 : k' = k0
        · rw [if_pos h3, if_pos h3]
        · rw [if_neg h3, if_neg h3]
          exact ih

/-- One router's link map: neighbor id → (output port, latency)
(`std::map<int, std::pair<int, int>>`). -/
abbrev LinkMap : Type := List (Int × (Int × Int))

/-- One of the two halves of `router_list`: router id → link map. -/
abbrev RList : Type := List (Int × LinkMap)

/-- `router_list[i].count(a) == 0 ? insert empty : nothing` (the HEAD_ID /
BODY_ID initialization of router structures). -/
def rl_touch (rl : RList) (a : Int) : RList :=
  match omap_find? rl a with
  | some _ => rl
  | none => omap_insert rl a []

/-- `router_list[i][a][b] = v` (operator[] default-creates the inner map). -/
def rl_set (rl : RList) (a b : Int) (v : Int × Int) : RList :=
  let inner := (omap_find? rl a).getD []
  omap_insert rl a (omap_insert inner b v)

/-- `router_list[i][a][b].second = w` (operator[] default-creates the pair
as value-initialized `(0, 0)` when absent). -/
def rl_set_lat (rl : RList) (a b : Int) (w : Int) : RList :=
  let inner := (omap_find? rl a).getD []
  let pv := (omap_find? inner b).getD (0, 0)
  omap_insert rl a (omap_insert inner b (pv.1, w))

/-- Edge lookup: the `(port, latency)` pair stored for `a → b`. -/
def rl_find (rl : RList) (a b : Int) : Option (Int × Int) :=
  (omap_find? rl a).bind fun inner => omap_find? inner b

/-- `router_list[i][a].count(b) != 0`. -/
def rl_contains (rl : RList) (a b : Int) : Bool :=
  (rl_find rl a b).isSome

theorem rl_find_set_self (rl : RList) (a b : Int) (v : Int × Int) :
    rl_find (rl_set rl a b v) a b = some v := by
  unfold rl_find rl_set
  rw [omap_find?_insert_self, Option.some_bind]
  exact omap_find?_insert_self _ _ _

theorem rl_find_set_ne (rl : RList) (a b x y : Int) (v : Int × Int)
    (h : x ≠ a ∨ y ≠ b) : rl_find (rl_set rl x y v) a b = rl_find rl a b := by
  unfold rl_find rl_set
  by_cases hx : a = x
  · subst hx
    have hy : y ≠ b := by
      rcases h with h | h
      · exact absurd rfl h
      · exact h
    rw [omap_find?_insert_self, Option.some_bind,
      omap_find?_insert_ne _ _ _ _ (Ne.symm hy)]
    cases omap_find? rl a <;> simp [omap_find?]
  · rw [omap_find?_insert_ne _ _ _ _ hx]

theorem rl_find_set_lat (rl : RList) (a b : Int) (w : Int) :
    rl_find (rl_set_lat rl a b w) a b =
      some (((rl_find rl a b).getD (0, 0)).1, w) := by
  unfold rl_find rl_set_lat
  rw [omap_find?_insert_self, Option.some_bind, omap_find?_insert_self]
  cases omap_find? rl a <;> simp [omap_find?]

theorem rl_find_set_lat_ne (rl : RList) (a b x y : Int) (w : Int)
    (h : x ≠ a ∨ y ≠ b) :
    rl_find (rl_set_lat rl x y w) a b = rl_find rl a b := by
  unfold rl_find rl_set_lat
  by_cases hx : a = x
  · subst hx
    have hy : y ≠ b := by
      rcases h with h | h
      · exact absurd rfl h
      · exact h
    rw [omap_find?_insert_self, Option.some_bind,
      omap_find?_insert_ne _ _ _ _ (Ne.symm hy)]
    cases omap_find? rl a <;> simp [omap_find?]
  · rw [omap_find?_insert_ne _ _ _ _ hx]

theorem rl_find_touch (rl : RList) (x a b : Int) :
    rl_find (rl_touch rl x) a b = rl_find rl a b := by
  unfold rl_find rl_touch
  cases hfx : omap_find? rl x with
  | some inner => rfl
  | none =>
    by_cases hax : a = x
    · subst hax
      rw [omap_find?_insert_self, hfx, Option.some_bind]
      simp [omap_find?]
    · rw [omap_find?_insert_ne _ _ _ _ hax]

/-- `enum ParseState` (anynet.cpp line 327). -/
inductive ParseState : Type
  | HEAD_TYPE
  | HEAD_ID
  | BODY_TYPE
  | BODY_ID
  | LINK_WEIGHT
  deriving DecidableEq, Repr

/-- `enum ParseType` (anynet.cpp line 328). -/
inductive ParseType : Type
  | NODE
  | ROUTER
  | UNKNOWN
  deriving DecidableEq, Repr

/-- The topology tables `readFile` fills: `node_list` (node → its router),
`router_list[NODE]` (router → node links), `router_list[ROUTER]`
(router → router links). -/
structure AnyNetTables : Type where
  node_list : List (Int × Int)
  rl_node : RList
  rl_router : RList

/-- The per-line parser registers (anynet.cpp lines 343-354). -/
structure LineCtx : Type where
  state : ParseState
  head_type : ParseType
  head_id : Int
  body_type : ParseType
  body_id : Int
  link_weight : Int

/-- The BODY_TYPE case of the switch (anynet.cpp lines 400-410), also
reached by fall-through from LINK_WEIGHT. -/
def do_body_type (net : AnyNetTables) (ctx : LineCtx) (temp : String) :
    Except String (AnyNetTables × LineCtx) :=
  if temp = "router" then
    .ok (net, { ctx with body_type := .ROUTER, state := .BODY_ID })
  else if temp = "node" then
    .ok (net, { ctx with body_type := .NODE, state := .BODY_ID })
  else .error "Unknow body type"

/-- The `router_list[head_type]` index of the LINK_WEIGHT case: the C++
indexes the two-element array by the head's ParseType. -/
def set_lat_by_head (net : AnyNetTables) (ht : ParseType) (a b w : Int) :
    Except String AnyNetTables :=
  match ht with
  | .NODE => .ok { net with rl_node := rl_set_lat net.rl_node a b w }
  | .ROUTER => .ok { net with rl_router := rl_set_lat net.rl_router a b w }
  | .UNKNOWN => .error "router_list index out of range"

/-- One token through the state machine of `AnyNet::readFile`
(anynet.cpp lines 365-464). -/
def process_token (net : AnyNetTables) (ctx : LineCtx) (temp : String) :
    Except String (AnyNetTables × LineCtx) :=
  match ctx.state with
  | .HEAD_TYPE =>
    if temp = "router" then
      .ok (net, { ctx with head_type := .ROUTER, state := .HEAD_ID })
    else if temp = "node" then
      .ok (net, { ctx with head_type := .NODE, state := .HEAD_ID })
    else .error "Unknow head of line type"
  | .HEAD_ID =>
    let head_id := atoi temp
    let net := { net with
      rl_node := rl_touch net.rl_node head_id
      rl_router := rl_touch net.rl_router head_id }
    .ok (net, { ctx with head_id := head_id, state := .BODY_TYPE })
  | .LINK_WEIGHT =>
    if temp = "router" ∨ temp = "node" then
      do_body_type net ctx temp
    else
      let w := atoi temp
      match set_lat_by_head net ctx.head_type ctx.head_id ctx.body_id w with
      | .ok net' => .ok (net', { ctx with link_weight := w })
      | .error e => .error e
  | .BODY_TYPE => do_body_type net ctx temp
  | .BODY_ID =>
    let body_id := atoi temp
    let net :=
      if ctx.body_type = ParseType.ROUTER then
        { net with
          rl_node := rl_touch net.rl_node body_id
          rl_router := rl_touch net.rl_router body_id }
      else net
    match ctx.head_type, ctx.body_type with
    | .NODE, .NODE => .error "Cannot connect node to node"
    | .NODE, .ROUTER =>
      if (omap_find? net.node_list ctx.head_id).isSome ∧
          omap_find? net.node_list ctx.head_id ≠ some body_id then
        .error "Node trying to connect to multiple router"
      else
        .ok ({ net with
          node_list := omap_insert net.node_list ctx.head_id body_id
          rl_node := rl_set net.rl_node body_id ctx.head_id (-1, 1) },
          { ctx with body_id := body_id, state := .LINK_WEIGHT })
    | .ROUTER, .NODE =>
      if (omap_find? net.node_list body_id).isSome ∧
          omap_find? net.node_list body_id ≠ some ctx.head_id then
        .error "Node trying to connect to multiple router"
      else
        .ok ({ net with
          node_list := omap_insert net.node_list body_id ctx.head_id
          rl_node := rl_set net.rl_node ctx.head_id body_id (-1, 1) },
          { ctx with body_id := body_id, state := .LINK_WEIGHT })
    | .ROUTER, .ROUTER =>
      let net := { net with
        rl_router := rl_set net.rl_router ctx.head_id body_id (-1, 1) }
      let net :=
        if rl_contains net.rl_router body_id ctx.head_id then net
        else { net with
          rl_router := rl_set net.rl_router body_id ctx.head_id (-1, 1) }
      .ok (net, { ctx with body_id := body_id, state := .LINK_WEIGHT })
    | _, _ => .error "Unknow parse state"

/-- The token loop over one line (anynet.cpp lines 356-466); empty and
blank tokens are skipped as in the source. -/
def process_tokens (net : AnyNetTables) (ctx : LineCtx) :
    List String → Except String AnyNetTables
  | [] => .ok net
  | t :: ts =>
    if t = "" ∨ t = " " then process_tokens net ctx ts
    else
      match process_token net ctx t with
      | .error e => .error e
      | .ok (net', ctx') => process_tokens net' ctx' ts

/-- Parse one line of the network file from its whitespace-split tokens. -/
def process_line (net : AnyNetTables) (tokens : List String) :
    Except String AnyNetTables :=
  process_tokens net
    { state := .HEAD_TYPE, head_type := .UNKNOWN, head_id := -1,
      body_type := .UNKNOWN, body_id := -1, link_weight := 1 } tokens

/-- The tables produced by parsing the line `router <a> router <b> <w>`
on top of `net` (reading the state machine forward: HEAD_TYPE, HEAD_ID
(touch a), BODY_TYPE, BODY_ID (touch b, install a→b, install b→a when
absent), LINK_WEIGHT (set the latency of a→b)). -/
def line_router_router (net : AnyNetTables) (a b w : Int) : AnyNetTables :=
  let rlr0 := rl_touch (rl_touch net.rl_router a) b
  let rlr1 := rl_set rlr0 a b (-1, 1)
  let rlr2 := if rl_contains rlr1 b a then rlr1 else rl_set rlr1 b a (-1, 1)
  { net with
    rl_node := rl_touch (rl_touch net.rl_node a) b
    rl_router := rl_set_lat rlr2 a b w }

theorem process_tokens_cons (net : AnyNetTables) (ctx : LineCtx)
    (t : String) (ts : List String) (h1 : t ≠ "") (h2 : t ≠ " ") :
    process_tokens net ctx (t :: ts) =
      match process_token net ctx t with
      | .error e => .error e
      | .ok (net', ctx') => process_tokens net' ctx' ts := by
  rw [process_tokens]
  rw [if_neg (by simp [h1, h2])]

theorem pt_step_ok (net : AnyNetTables) (ctx : LineCtx) (t : String)
    (ts : List String) (net' : AnyNetTables) (ctx' : LineCtx)
    (h1 : t ≠ "") (h2 : t ≠ " ")
    (h : process_token net ctx t = .ok (net', ctx')) :
    process_tokens net ctx (t :: ts) = process_tokens net' ctx' ts := by
  rw [process_tokens_cons net ctx t ts h1 h2, h]

theorem process_line_router_router
    (net : AnyNetTables) (sa sb sw : String)
    (hsa1 : sa ≠ "") (hsa2 : sa ≠ " ")
    (hsb1 : sb ≠ "") (hsb2 : sb ≠ " ")
    (hsw1 : sw ≠ "") (hsw2 : sw ≠ " ")
    (hswr : sw ≠ "router") (hswn : sw ≠ "node") :
    process_line net ["router", sa, "router", sb, sw] =
      .ok (line_router_router net (atoi sa) (atoi sb) (atoi sw)) := by
  unfold process_line
  rw [pt_step_ok net ⟨.HEAD_TYPE, .UNKNOWN, -1, .UNKNOWN, -1, 1⟩ "router" _ net
    ⟨.HEAD_ID, .ROUTER, -1, .UNKNOWN, -1, 1⟩ (by decide) (by decide) rfl]
  rw [pt_step_ok net ⟨.HEAD_ID, .ROUTER, -1, .UNKNOWN, -1, 1⟩ sa _
    { net with rl_node := rl_touch net.rl_node (atoi sa)
               rl_router := rl_touch net.rl_router (atoi sa) }
    ⟨.BODY_TYPE, .ROUTER, atoi sa, .UNKNOWN, -1, 1⟩ hsa1 hsa2 rfl]
  rw [pt_step_ok
    { net with rl_node := rl_touch net.rl_node (atoi sa)
               rl_router := rl_touch net.rl_router (atoi sa) }
    ⟨.BODY_TYPE, .ROUTER, atoi sa, .UNKNOWN, -1, 1⟩ "router" _
    { net with rl_node := rl_touch net.rl_node (atoi sa)
               rl_router := rl_touch net.rl_router (atoi sa) }
    ⟨.BODY_ID, .ROUTER, atoi sa, .ROUTER, -1, 1⟩ (by decide) (by decide) rfl]
  have h4 : process_token
      { net with rl_node := rl_touch net.rl_node (atoi sa)
                 rl_router := rl_touch net.rl_router (atoi sa) }
      ⟨.BODY_ID, .ROUTER, atoi sa, .ROUTER, -1, 1⟩ sb =
      .ok ((if rl_contains
            (rl_set (rl_touch (rl_touch net.rl_router (atoi sa)) (atoi sb))
              (atoi sa) (atoi sb) (-1, 1)) (atoi sb) (atoi sa) = true then
          (⟨net.node_list,
            rl_touch (rl_touch net.rl_node (atoi sa)) (atoi sb),
            rl_set (rl_touch (rl_touch net.rl_router (atoi sa)) (atoi sb))
              (atoi sa) (atoi sb) (-1, 1)⟩ : AnyNetTables)
        else
          ⟨net.node_list,
            rl_touch (rl_touch net.rl_node (atoi sa)) (atoi sb),
            rl_set (rl_set (rl_touch (rl_touch net.rl_router (atoi sa))
              (atoi sb)) (atoi sa) (atoi sb) (-1, 1)) (atoi sb) (atoi sa)
              (-1, 1)⟩),
        ⟨.LINK_WEIGHT, .ROUTER, atoi sa, .ROUTER, atoi sb, 1⟩) := rfl
  rw [pt_step_ok _ _ sb _ _ _ hsb1 hsb2 h4]
  by_cases hrev : rl_contains
      (rl_set (rl_touch (rl_touch net.rl_router (atoi sa)) (atoi sb))
        (atoi sa) (atoi sb) (-1, 1)) (atoi sb) (atoi sa) = true
  · rw [if_pos hrev]
    have h5 : process_token
        ⟨net.node_list, rl_touch (rl_touch net.rl_node (atoi sa)) (atoi sb),
          rl_set (rl_touch (rl_touch net.rl_router (atoi sa)) (atoi sb))
            (atoi sa) (atoi sb) (-1, 1)⟩
        ⟨.LINK_WEIGHT, .ROUTER, atoi sa, .ROUTER, atoi sb, 1⟩ sw =
        .ok (⟨net.node_list,
          rl_touch (rl_touch net.rl_node (atoi sa)) (atoi sb),
          rl_set_lat (rl_set (rl_touch (rl_touch net.rl_router (atoi sa))
              (atoi sb)) (atoi sa) (atoi sb) (-1, 1))
            (atoi sa) (atoi sb) (atoi sw)⟩,
          ⟨.LINK_WEIGHT, .ROUTER, atoi sa, .ROUTER, atoi sb, atoi sw⟩) := by
      show (if sw = "router" ∨ sw = "node" then _ else _) = _
      rw [if_neg (by simp [hswr, hswn])]
    rw [pt_step_ok _ _ sw _ _ _ hsw1 hsw2 h5]
    show Except.ok _ = _
    simp only [line_router_router]
    rw [if_pos hrev]
  · rw [if_neg hrev]
    have h5 : process_token
        ⟨net.node_list, rl_touch (rl_touch net.rl_node (atoi sa)) (atoi sb),
          rl_set (rl_set (rl_touch (rl_touch net.rl_router (atoi sa))
            (atoi sb)) (atoi sa) (atoi sb) (-1, 1)) (atoi sb) (atoi sa)
            (-1, 1)⟩
        ⟨.LINK_WEIGHT, .ROUTER, atoi sa, .ROUTER, atoi sb, 1⟩ sw =
        .ok (⟨net.node_list,
          rl_touch (rl_touch net.rl_node (atoi sa)) (atoi sb),
          rl_set_lat (rl_set (rl_set (rl_touch (rl_touch net.rl_router
              (atoi sa)) (atoi sb)) (atoi sa) (atoi sb) (-1, 1))
              (atoi sb) (atoi sa) (-1, 1))
            (atoi sa) (atoi sb) (atoi sw)⟩,
          ⟨.LINK_WEIGHT, .ROUTER, atoi sa, .ROUTER, atoi sb, atoi sw⟩) := by
      show (if sw = "router" ∨ sw = "node" then _ else _) = _
      rw [if_neg (by simp [hswr, hswn])]
    rw [pt_step_ok _ _ sw _ _ _ hsw1 hsw2 h5]
    show Except.ok _ = _
    simp only [line_router_router]
    rw [if_neg hrev]

/-- C10: a declaration `router A ... router B w` installs the edge A→B
with latency `w`, and additionally installs the reverse edge B→A with the
default latency 1 exactly when the reverse direction is not already
present; an already-present reverse entry is left untouched by the
declaration, so router-to-router latencies are unidirectional and an
undeclared return channel keeps latency 1 (anynet.cpp lines 391-398,
451-457). -/
theorem C10_router_link_default_reverse
    (net : AnyNetTables) (sa sb sw : String) (a b w : Int)
    (ha : atoi sa = a) (hb : atoi sb = b) (hw : atoi sw = w)
    (hsa1 : sa ≠ "") (hsa2 : sa ≠ " ")
    (hsb1 : sb ≠ "") (hsb2 : sb ≠ " ")
    (hsw1 : sw ≠ "") (hsw2 : sw ≠ " ")
    (hswr : sw ≠ "router") (hswn : sw ≠ "node")
    (hab : a ≠ b) :
    process_line net ["router", sa, "router", sb, sw] =
      .ok (line_router_router net a b w) ∧
    rl_find (line_router_router net a b w).rl_router a b = some (-1, w) ∧
    (rl_find net.rl_router b a = none →
      rl_find (line_router_router net a b w).rl_router b a = some (-1, 1)) ∧
    (∀ v, rl_find net.rl_router b a = some v →
      rl_find (line_router_router net a b w).rl_router b a = some v) := by
  subst ha hb hw
  refine ⟨process_line_router_router net sa sb sw hsa1 hsa2 hsb1 hsb2 hsw1
    hsw2 hswr hswn, ?_, ?_, ?_⟩
  · show rl_find (rl_set_lat _ (atoi sa) (atoi sb) (atoi sw))
      (atoi sa) (atoi sb) = _
    rw [rl_find_set_lat]
    have hfwd : rl_find
        (if rl_contains
            (rl_set (rl_touch (rl_touch net.rl_router (atoi sa)) (atoi sb))
              (atoi sa) (atoi sb) (-1, 1)) (atoi sb) (atoi sa) = true then
          rl_set (rl_touch (rl_touch net.rl_router (atoi sa)) (atoi sb))
            (atoi sa) (atoi sb) (-1, 1)
        else
          rl_set (rl_set (rl_touch (rl_touch net.rl_router (atoi sa)) (atoi sb))
            (atoi sa) (atoi sb) (-1, 1)) (atoi sb) (atoi sa) (-1, 1))
        (atoi sa) (atoi sb) = some (-1, 1) := by
      split
      · exact rl_find_set_self _ _ _ _
      · rw [rl_find_set_ne _ _ _ _ _ _ (Or.inl (Ne.symm hab))]
        exact rl_find_set_self _ _ _ _
    rw [hfwd]
    rfl
  · intro hnone
    show rl_find (rl_set_lat _ (atoi sa) (atoi sb) (atoi sw))
      (atoi sb) (atoi sa) = _
    rw [rl_find_set_lat_ne _ _ _ _ _ _ (Or.inl hab)]
    have hrev : rl_find
        (rl_set (rl_touch (rl_touch net.rl_router (atoi sa)) (atoi sb))
          (atoi sa) (atoi sb) (-1, 1)) (atoi sb) (atoi sa) = none := by
      rw [rl_find_set_ne _ _ _ _ _ _ (Or.inl hab), rl_find_touch,
        rl_find_touch]
      exact hnone
    rw [if_neg (by unfold rl_contains; rw [hrev]; exact Bool.false_ne_true)]
    exact rl_find_set_self _ _ _ _
  · intro v hv
    show rl_find (rl_set_lat _ (atoi sa) (atoi sb) (atoi sw))
      (atoi sb) (atoi sa) = _
    rw [rl_find_set_lat_ne _ _ _ _ _ _ (Or.inl hab)]
    have hrev : rl_find
        (rl_set (rl_touch (rl_touch net.rl_router (atoi sa)) (atoi sb))
          (atoi sa) (atoi sb) (-1, 1)) (atoi sb) (atoi sa) = some v := by
      rw [rl_find_set_ne _ _ _ _ _ _ (Or.inl hab), rl_find_touch,
        rl_find_touch]
      exact hv
    rw [if_pos (by unfold rl_contains; rw [hrev]; rfl)]
    exact hrev

/-- Witness for C10: the spec's own example line `router 0 router 1 15` on
empty tables: edge 0→1 has latency 15 and the reverse edge 1→0 appears
with the default latency 1. -/
theorem C10_router_link_default_reverse_witness :
    process_line ⟨[], [], []⟩ ["router", "0", "router", "1", "15"] =
      .ok (line_router_router ⟨[], [], []⟩ 0 1 15) ∧
    rl_find (line_router_router ⟨[], [], []⟩ 0 1 15).rl_router 0 1 =
      some (-1, 15) ∧
    rl_find (line_router_router ⟨[], [], []⟩ 0 1 15).rl_router 1 0 =
      some (-1, 1) := by
  obtain ⟨h1, h2, h3, _⟩ :=
    C10_router_link_default_reverse ⟨[], [], []⟩ "0" "1" "15" 0 1 15
      (by decide) (by decide) (by decide) (by decide) (by decide) (by decide)
      (by decide) (by decide) (by decide) (by decide) (by decide) (by decide)
  exact ⟨h1, h2, h3 (by decide)⟩

/-! ## Part 5: anynet routing-table construction
(anynet.cpp, `AnyNet::buildRoutingTable` / `AnyNet::route`)

`route` works on the parsed topology with routers numbered `0 .. _size-1`
(the file format requires "Router and node numbers must be sequential
starting with 0"; `route` indexes its `dist`/`prev` arrays by router id).
The two halves of `router_list` are therefore position-indexed lists of
link maps here. -/

/-- The parsed topology as `route` sees it: `rr.get r` is
`router_list[1][r]` (router-to-router links of router `r`), `rn.get r` is
`router_list[0][r]` (node links of router `r`); each link map takes the
neighbor/node id to `(output port, latency)`. -/
structure AnyNetGraph : Type where
  size : Nat
  rr : List LinkMap
  rn : List LinkMap
  deriving DecidableEq, Repr

/-- `std::numeric_limits<int>::max()`. -/
def INT_MAX : Int := 2147483647

namespace AnyNetGraph

/-- `router_list[1][u]`. -/
def rr_row (g : AnyNetGraph) (u : Nat) : LinkMap := g.rr.getD u []

/-- `router_list[0][u]`. -/
def rn_row (g : AnyNetGraph) (u : Nat) : LinkMap := g.rn.getD u []

/-- There is a declared router-to-router channel `u → v` of latency `w`. -/
def edge (g : AnyNetGraph) (u v : Nat) (w : Int) : Prop :=
  ∃ p, omap_find? (g.rr_row u) (v : Int) = some (p, w)

/-- The min-search of `route`'s while loop (anynet.cpp lines 266-274):
scan the remaining set in ascending order keeping the first strict
improvement; `(min_dist, min_cand)` starts at `(INT_MAX, -1)`. -/
def find_min (dist : List Int) : List Nat → Int × Int → Int × Int
  | [], acc => acc
  | v :: rest, acc =>
    if dist.getD v 0 < acc.1 then find_min dist rest (dist.getD v 0, v)
    else find_min dist rest acc

/-- The neighbor relaxation of `route` (anynet.cpp lines 277-287): for each
neighbor of the extracted router, in map order, update `dist`/`prev` on
strict improvement. -/
def relax (u : Nat) (du : Int) (dist prev : List Int) :
    LinkMap → List Int × List Int
  | [] => (dist, prev)
  | (v, _, w) :: rest =>
    let nd := du + w
    if nd < dist.getD v.toNat 0 then
      relax u du (dist.set v.toNat nd) (prev.set v.toNat (u : Int)) rest
    else relax u du dist prev rest

/-- The while loop of `route` (anynet.cpp lines 265-288).  `none` encodes
that the C++ loop never terminates: when every remaining router has
`dist = INT_MAX`, `min_cand` stays `-1`, `rlist.erase(-1)` removes
nothing, no distance changes, and the loop state repeats forever.  The
fuel is the initial `|rlist|`; each productive iteration erases one
element, so the fuel is never exhausted on terminating runs. -/
def dijkstra_loop (g : AnyNetGraph) :
    Nat → List Nat → List Int → List Int → Option (List Int × List Int)
  | 0, rlist, dist, prev => if rlist = [] then some (dist, prev) else none
  | fuel + 1, rlist, dist, prev =>
    if rlist = [] then some (dist, prev)
    else
      let mm := find_min dist rlist (INT_MAX, -1)
      if mm.2 = -1 then none
      else
        let u := mm.2.toNat
        let dp := relax u (dist.getD u 0) dist prev (g.rr_row u)
        dijkstra_loop g fuel (rlist.erase u) dp.1 dp.2

/-- Outcome of `route`/`buildRoutingTable`: a value, a non-terminating
loop, or an assertion failure. -/
inductive RouteResult (α : Type) : Type
  | ok (a : α)
  | stuck
  | fail
  deriving DecidableEq, Repr

/-- The back-walk of `route`'s post-processing (anynet.cpp lines 301-309):
from router `nb`, follow `prev` until the predecessor is `r_start`,
asserting the (reverse) channel exists and accumulating latencies; returns
the first-hop router and the accumulated distance.  Fuel bounds the loop
(it strictly descends the positive `dist` values, so `INT_MAX` steps
always suffice); `.stuck` encodes the C++ loop spinning on a `prev`
cycle. -/
def walk_first_hop (g : AnyNetGraph) (prev : List Int) (r_start : Nat) :
    Nat → Nat → Int → RouteResult (Nat × Int)
  | 0, _, _ => .stuck
  | fuel + 1, nb, dacc =>
    let p := prev.getD nb (-1)
    if p = (r_start : Int) then
      let w := ((omap_find? (g.rr_row r_start) (nb : Int)).getD (0, 0)).2
      .ok (nb, dacc + w)
    else
      if (omap_find? (g.rr_row nb) p).isSome then
        let w := ((omap_find? (g.rr_row p.toNat) (nb : Int)).getD (0, 0)).2
        walk_first_hop g prev r_start fuel p.toNat (dacc + w)
      else .fail

/-- Insert `table[node] = port` for every node link of router `i` with a
common outgoing port (anynet.cpp lines 313-319). -/
def table_add_nodes (links : LinkMap) (port : Int)
    (table : List (Int × Int)) : List (Int × Int) :=
  links.foldl (fun t e => omap_insert t e.1 port) table

/-- Insert `table[node] = ejection port of the node` for every node link of
`r_start` itself (anynet.cpp lines 294-299: `iter->second.first`). -/
def table_add_eject (links : LinkMap) (table : List (Int × Int)) :
    List (Int × Int) :=
  links.foldl (fun t e => omap_insert t e.1 e.2.1) table

/-- The post-processing loop of `route` (anynet.cpp lines 291-321) over the
routers `todo`: a router with `prev = -1` must be `r_start` itself (its
nodes eject); otherwise walk back to the first hop and route the router's
nodes out of the channel `r_start → first hop`. -/
def route_post (g : AnyNetGraph) (r_start : Nat) (dist prev : List Int) :
    List Nat → List (Int × Int) → RouteResult (List (Int × Int))
  | [], table => .ok table
  | i :: todo, table =>
    if prev.getD i (-1) = -1 then
      if i = r_start then
        route_post g r_start dist prev todo
          (table_add_eject (g.rn_row i) table)
      else .fail
    else
      match walk_first_hop g prev r_start (INT_MAX.toNat) i 0 with
      | .ok (neighbor, _) =>
        let port := ((omap_find? (g.rr_row r_start) (neighbor : Int)).getD
          (0, 0)).1
        route_post g r_start dist prev todo
          (table_add_nodes (g.rn_row i) port table)
      | .stuck => .stuck
      | .fail => .fail

/-- `AnyNet::route(r_start)` (anynet.cpp lines 255-322): Dijkstra from
`r_start` followed by the `prev`-based table construction. -/
def route (g : AnyNetGraph) (r_start : Nat) : RouteResult (List (Int × Int)) :=
  let dist := (List.replicate g.size INT_MAX).set r_start 0
  let prev := List.replicate g.size (-1 : Int)
  match dijkstra_loop g g.size (List.range g.size) dist prev with
  | none => .stuck
  | some (dist, prev) =>
    route_post g r_start dist prev (List.range g.size) []

/-- `AnyNet::buildRoutingTable` (anynet.cpp lines 243-251): one `route`
per router. -/
def buildRoutingTable (g : AnyNetGraph) :
    RouteResult (List (List (Int × Int))) :=
  (List.range g.size).foldr
    (fun r acc =>
      match route g r, acc with
      | .ok t, .ok ts => .ok (t :: ts)
      | .stuck, _ => .stuck
      | _, .stuck => .stuck
      | _, _ => .fail)
    (.ok [])

end AnyNetGraph

/-! ### Specification side: walks, shortest distances, well-formedness -/

namespace AnyNetGraph

/-- A walk from `u` to `t` whose successive routers are `vs` and whose
total declared latency is `c`. -/
inductive PWalk (g : AnyNetGraph) : Nat → List Nat → Nat → Int → Prop
  | nil (v : Nat) (hv : v < g.size) : PWalk g v [] v 0
  | cons (u x : Nat) (w : Int) (vs : List Nat) (t : Nat) (c : Int)
      (hu : u < g.size) (he : g.edge u x w) (hrest : PWalk g x vs t c) :
      PWalk g u (x :: vs) t (w + c)

/-- `c` is the minimum total latency of a walk from `u` to `t` (the
Dijkstra distance). -/
def IsMinDist (g : AnyNetGraph) (u t : Nat) (c : Int) : Prop :=
  (∃ vs, PWalk g u vs t c) ∧ ∀ vs c', PWalk g u vs t c' → c ≤ c'

/-- Routers reachable from `r` in at most `k` hops (used for the decidable
connectivity check). -/
def reach (g : AnyNetGraph) (r : Nat) : Nat → List Nat
  | 0 => [r]
  | k + 1 =>
    let prev := reach g r k
    (prev ++ prev.flatMap fun u => (g.rr_row u).map fun e => e.1.toNat).dedup

/-- Decidable connectivity of the router graph: every router reaches every
other within `size` hops. -/
def connected_b (g : AnyNetGraph) : Bool :=
  decide (∀ r, r < g.size → ∀ v, v < g.size → v ∈ reach g r g.size)

/-- Sum of the latencies of one router's outgoing channels. -/
def row_weight (links : LinkMap) : Int :=
  (links.map fun e => e.2.2).sum

/-- Sum of all declared router-to-router latencies. -/
def total_weight (g : AnyNetGraph) : Int :=
  ((List.range g.size).map fun u => row_weight (g.rr_row u)).sum

/-- Well-formedness of the parsed topology, as the anynet parser
guarantees it: both halves of `router_list` cover routers `0..size-1`;
link-map keys are distinct (`std::map`); router neighbors are router ids
with positive latency; every declared channel has a reverse channel (the
parser always installs one — `route` asserts this); each node is attached
to exactly one router (`node_list` enforces this). -/
def graph_wf (g : AnyNetGraph) : Prop :=
  0 < g.size ∧
  g.rr.length = g.size ∧
  g.rn.length = g.size ∧
  (∀ u, u < g.size → ((g.rr_row u).map fun e => e.1).Nodup) ∧
  (∀ u, u < g.size → ((g.rn_row u).map fun e => e.1).Nodup) ∧
  (∀ u, u < g.size → ∀ e ∈ g.rr_row u,
    0 ≤ e.1 ∧ e.1.toNat < g.size ∧ 0 < e.2.2) ∧
  (∀ u, u < g.size → ∀ e ∈ g.rr_row u,
    (omap_find? (g.rr_row e.1.toNat) (u : Int)).isSome) ∧
  (∀ u, u < g.size → ∀ v, v < g.size → u ≠ v →
    ∀ e ∈ g.rn_row u, ∀ e' ∈ g.rn_row v, e.1 ≠ e'.1)

instance (g : AnyNetGraph) : Decidable (graph_wf g) := by
  unfold graph_wf
  infer_instance

/-- Per-router injectivity of the output-port numbers of router-to-router
channels, as `_BuildNet` assigns them (one fresh `outport[node]++` per
channel). -/
def ports_ok (g : AnyNetGraph) : Prop :=
  ∀ u, u < g.size → ((g.rr_row u).map fun e => e.2.1).Nodup

instance (g : AnyNetGraph) : Decidable (ports_ok g) := by
  unfold ports_ok
  infer_instance

/-- The routing-table entry of router `r` for destination node `d`. -/
def table_port (tbls : List (List (Int × Int))) (r : Nat) (d : Int) :
    Option Int :=
  omap_find? (tbls.getD r []) d

/-- The router a flit at router `cur` is forwarded to for destination `d`:
the neighbor on the other end of the channel whose output port the routing
table names. -/
def next_hop (g : AnyNetGraph) (tbls : List (List (Int × Int)))
    (cur : Nat) (d : Int) : Option Nat :=
  (table_port tbls cur d).bind fun p =>
    ((g.rr_row cur).find? fun e => e.2.1 = p).map fun e => e.1.toNat

/-- Follow the routing tables hop by hop from router `cur` toward the node
`d` attached to router `t`, summing link latencies; `none` when the tables
fail to make progress within the fuel. -/
def follow (g : AnyNetGraph) (tbls : List (List (Int × Int))) (t : Nat)
    (d : Int) : Nat → Nat → Option (Nat × Int)
  | 0, _ => none
  | fuel + 1, cur =>
    if cur = t then some (cur, 0)
    else
      match next_hop g tbls cur d with
      | none => none
      | some v =>
        match ((g.rr_row cur).find? fun e => e.1 = (v : Int)) with
        | none => none
        | some e =>
          (follow g tbls t d fuel v).map fun r => (r.1, e.2.2 + r.2)

end AnyNetGraph

/-! ### C1 counterexample: a parser-accepted topology on which
`buildRoutingTable` never terminates -/

/-- Two routers, each with one attached node, and no router-to-router
channel at all: accepted by `readFile` (it merely prints a caution for an
unconnected router), but `route` loops forever. -/
def discGraph : AnyNetGraph :=
  { size := 2
    rr := [[], []]
    rn := [[(0, 0, 1)], [(1, 0, 1)]] }

/-- C1 (counterexample): on the disconnected two-router topology, the
Dijkstra loop of `route` gets stuck — `min_cand` stays `-1`, so the C++
`while (!rlist.empty())` loop repeats the same state forever — hence no
routing table is ever built, no entry `routing_table[r][d]` exists, and
following the table cannot reach the other node; the claim fails for this
parser-accepted topology. -/
theorem C1_disconnected_counterexample :
    AnyNetGraph.route discGraph 0 = AnyNetGraph.RouteResult.stuck ∧
    AnyNetGraph.buildRoutingTable discGraph =
      AnyNetGraph.RouteResult.stuck ∧
    AnyNetGraph.graph_wf discGraph := by
  refine ⟨rfl, rfl, by decide⟩

/-! ### Walk lemmas -/

theorem omap_find?_mem {α : Type} {m : List (Int × α)} {k : Int} {v : α}
    (h : omap_find? m k = some v) : (k, v) ∈ m := by
  induction m with
  | nil => cases h
  | cons e rest ih =>
    obtain ⟨k', v'⟩ := e
    unfold omap_find? at h
    by_cases hk : k = k'
    · rw [if_pos hk] at h
      cases h
      subst hk
      exact List.mem_cons_self _ _
    · rw [if_neg hk] at h
      exact List.mem_cons_of_mem _ (ih h)

theorem mem_omap_find? {α : Type} {m : List (Int × α)} {k : Int} {v : α}
    (hnd : (m.map Prod.fst).Nodup) (h : (k, v) ∈ m) :
    omap_find? m k = some v := by
  induction m with
  | nil => cases h
  | cons e rest ih =>
    obtain ⟨k', v'⟩ := e
    rw [List.map_cons, List.nodup_cons] at hnd
    rcases List.mem_cons.mp h with he | hmem
    · cases he
      unfold omap_find?
      rw [if_pos rfl]
    · unfold omap_find?
      by_cases hk : k = k'
      · subst hk
        exact absurd (List.mem_map.mpr ⟨_, hmem, rfl⟩) hnd.1
      · rw [if_neg hk]
        exact ih hnd.2 hmem

namespace AnyNetGraph

theorem edge_mem {g : AnyNetGraph} {u v : Nat} {w : Int}
    (h : g.edge u v w) : ∃ p, ((v : Int), (p, w)) ∈ g.rr_row u := by
  obtain ⟨p, hp⟩ := h
  exact ⟨p, omap_find?_mem hp⟩

theorem pwalk_src_lt {g : AnyNetGraph} {u vs t c} (h : PWalk g u vs t c) :
    u < g.size := by
  cases h with
  | nil _ hv => exact hv
  | cons _ _ _ _ _ _ hu _ _ => exact hu

theorem pwalk_dst_lt {g : AnyNetGraph} {u vs t c} (h : PWalk g u vs t c) :
    t < g.size := by
  induction h with
  | nil _ hv => exact hv
  | cons _ _ _ _ _ _ _ _ _ ih => exact ih

theorem pwalk_cost_nonneg {g : AnyNetGraph} (hwf : g.graph_wf)
    {u vs t c} (h : PWalk g u vs t c) : 0 ≤ c := by
  induction h with
  | nil _ _ => exact le_refl 0
  | cons u' x w vs' t' c' hu he _ ih =>
    obtain ⟨p, hmem⟩ := edge_mem he
    have hw : (0 : Int) < w := (hwf.2.2.2.2.2.1 u' hu _ hmem).2.2
    omega

theorem pwalk_append {g : AnyNetGraph} {u vs x c₁ vs' t c₂}
    (h1 : PWalk g u vs x c₁) (h2 : PWalk g x vs' t c₂) :
    PWalk g u (vs ++ vs') t (c₁ + c₂) := by
  induction h1 with
  | nil v hv =>
    simpa using h2
  | cons u' x' w ws t' c' hu he _ ih =>
    have := PWalk.cons u' x' w (ws ++ vs') t (c' + c₂) hu he (ih h2)
    simpa [add_assoc] using this

theorem pwalk_single {g : AnyNetGraph} {u v : Nat} {w : Int}
    (hu : u < g.size) (hv : v < g.size) (he : g.edge u v w) :
    PWalk g u [v] v w := by
  have := PWalk.cons u v w [] v 0 hu he (PWalk.nil v hv)
  simpa using this

/-- A walk visiting `v` has a prefix walk ending at `v`. -/
theorem pwalk_prefix {g : AnyNetGraph} {r vs t c} (h : PWalk g r vs t c)
    {v : Nat} (hv : v ∈ r :: vs) :
    ∃ vs' c', PWalk g r vs' v c' ∧ (r :: vs') <+: (r :: vs) := by
  induction h with
  | nil x hx =>
    rcases List.mem_singleton.mp hv with rfl
    exact ⟨[], 0, PWalk.nil _ hx, List.prefix_refl _⟩
  | cons u x w ws t' c' hu he hrest ih =>
    rcases List.mem_cons.mp hv with rfl | hv'
    · exact ⟨[], 0, PWalk.nil _ hu, ⟨x :: ws, rfl⟩⟩
    · obtain ⟨vs', c'', hw, hpre⟩ := ih hv'
      exact ⟨x :: vs', w + c'', PWalk.cons u x w vs' v c'' hu he hw,
        by
          obtain ⟨rest, hrest'⟩ := hpre
          exact ⟨rest, by simpa using congrArg (u :: ·) hrest'⟩⟩

/-- Every router in the `k`-step reach set is the end of a duplicate-free
walk from `r`. -/
theorem reach_sound {g : AnyNetGraph} (hwf : g.graph_wf) {r : Nat}
    (hr : r < g.size) :
    ∀ k v, v ∈ g.reach r k →
      ∃ vs c, PWalk g r vs v c ∧ (r :: vs).Nodup := by
  intro k
  induction k with
  | zero =>
    intro v hv
    rcases List.mem_singleton.mp hv with rfl
    exact ⟨[], 0, PWalk.nil _ hr, by simp⟩
  | succ k ih =>
    intro v hv
    simp only [reach] at hv
    rcases List.mem_append.mp (List.mem_dedup.mp hv) with hv' | hv'
    · exact ih v hv'
    · rw [List.mem_flatMap] at hv'
      obtain ⟨u, hu, hmem⟩ := hv'
      rw [List.mem_map] at hmem
      obtain ⟨e, he, rfl⟩ := hmem
      obtain ⟨vs, c, hw, hnd⟩ := ih u hu
      have hult : u < g.size := pwalk_dst_lt hw
      have hrow := hwf.2.2.2.2.2.1 u hult e he
      have hedge : g.edge u e.1.toNat e.2.2 := by
        refine ⟨e.2.1, ?_⟩
        have : ((e.1.toNat : Int), (e.2.1, e.2.2)) ∈ g.rr_row u := by
          rw [Int.toNat_of_nonneg hrow.1]
          exact he
        exact mem_omap_find? (hwf.2.2.2.1 u hult) this
      by_cases hin : e.1.toNat ∈ r :: vs
      · obtain ⟨vs', c', hw', hpre⟩ := pwalk_prefix hw hin
        exact ⟨vs', c', hw', hpre.sublist.nodup hnd⟩
      · refine ⟨vs ++ [e.1.toNat], c + e.2.2,
          pwalk_append hw (pwalk_single hult hrow.2.1 hedge), ?_⟩
        rw [show r :: (vs ++ [e.1.toNat]) = (r :: vs) ++ [e.1.toNat] by simp]
        rw [List.nodup_append]
        exact ⟨hnd, List.nodup_singleton _, by
          intro a ha hb
          rcases List.mem_singleton.mp hb with rfl
          exact hin ha⟩

end AnyNetGraph

/-- Sum of nonnegative terms over a duplicate-free selection is at most
the sum over any duplicate-free superset. -/
theorem sum_map_le_of_subset (f : Nat → Int) (hf : ∀ i, 0 ≤ f i) :
    ∀ (l m : List Nat), l.Nodup → m.Nodup → (∀ i ∈ l, i ∈ m) →
      (l.map f).sum ≤ (m.map f).sum := by
  intro l
  induction l with
  | nil =>
    intro m _ _ _
    simp only [List.map_nil, List.sum_nil]
    have : ∀ x ∈ m.map f, 0 ≤ x := by
      intro x hx
      obtain ⟨i, _, rfl⟩ := List.mem_map.mp hx
      exact hf i
    exact List.sum_nonneg this
  | cons a l ih =>
    intro m hl hm hsub
    have ham : a ∈ m := hsub a (List.mem_cons_self _ _)
    have hperm : List.Perm m (a :: m.erase a) := List.perm_cons_erase ham
    have hsum : (m.map f).sum = f a + ((m.erase a).map f).sum := by
      rw [(hperm.map f).sum_eq]
      simp
    rw [hsum, List.map_cons, List.sum_cons]
    have hl' := List.nodup_cons.mp hl
    refine add_le_add_left (ih (m.erase a) hl'.2 (hm.erase a) ?_) (f a)
    intro i hi
    rw [List.mem_erase_of_ne ?_]
    · exact hsub i (List.mem_cons_of_mem _ hi)
    · intro hia
      subst hia
      exact hl'.1 hi

namespace AnyNetGraph

theorem row_weight_nonneg {g : AnyNetGraph} (hwf : g.graph_wf) {u : Nat}
    (hu : u < g.size) : 0 ≤ row_weight (g.rr_row u) := by
  unfold row_weight
  refine List.sum_nonneg ?_
  intro x hx
  obtain ⟨e, he, rfl⟩ := List.mem_map.mp hx
  exact le_of_lt (hwf.2.2.2.2.2.1 u hu e he).2.2

theorem weight_le_row {g : AnyNetGraph} (hwf : g.graph_wf) {u : Nat}
    (hu : u < g.size) {e : Int × Int × Int} (he : e ∈ g.rr_row u) :
    e.2.2 ≤ row_weight (g.rr_row u) := by
  unfold row_weight
  refine List.single_le_sum ?_ _ (List.mem_map.mpr ⟨e, he, rfl⟩)
  intro x hx
  obtain ⟨e', he', rfl⟩ := List.mem_map.mp hx
  exact le_of_lt (hwf.2.2.2.2.2.1 u hu e' he').2.2

theorem row_le_total {g : AnyNetGraph} (hwf : g.graph_wf) {u : Nat}
    (hu : u < g.size) : row_weight (g.rr_row u) ≤ total_weight g := by
  unfold total_weight
  refine List.single_le_sum ?_ _
    (List.mem_map.mpr ⟨u, List.mem_range.mpr hu, rfl⟩)
  intro x hx
  obtain ⟨v, hv, rfl⟩ := List.mem_map.mp hx
  exact row_weight_nonneg hwf (List.mem_range.mp hv)

theorem total_weight_nonneg {g : AnyNetGraph} (hwf : g.graph_wf) :
    0 ≤ total_weight g := by
  unfold total_weight
  refine List.sum_nonneg ?_
  intro x hx
  obtain ⟨v, hv, rfl⟩ := List.mem_map.mp hx
  exact row_weight_nonneg hwf (List.mem_range.mp hv)

theorem pwalk_mem_lt {g : AnyNetGraph} {r vs t c} (h : PWalk g r vs t c) :
    ∀ y ∈ r :: vs, y < g.size := by
  induction h with
  | nil v hv =>
    intro y hy
    rcases List.mem_singleton.mp hy with rfl
    exact hv
  | cons u x w vs' t' c' hu _ _ ih =>
    intro y hy
    rcases List.mem_cons.mp hy with rfl | hy'
    · exact hu
    · exact ih y hy'

/-- A duplicate-free walk's cost, plus a full row of its endpoint, fits
under the total declared latency. -/
theorem pwalk_nodup_bound {g : AnyNetGraph} (hwf : g.graph_wf)
    {r vs t c} (h : PWalk g r vs t c) (hnd : (r :: vs).Nodup) :
    c + row_weight (g.rr_row t) ≤ total_weight g := by
  have hmain : c + row_weight (g.rr_row t) ≤
      ((r :: vs).map fun u => row_weight (g.rr_row u)).sum := by
    clear hnd
    induction h with
    | nil v hv => simp
    | cons u x w vs' t' c' hu he _ ih =>
      obtain ⟨p, hmem⟩ := edge_mem he
      have hw : w ≤ row_weight (g.rr_row u) := by
        have := weight_le_row hwf hu hmem
        simpa using this
      rw [List.map_cons, List.sum_cons]
      omega
  refine le_trans hmain ?_
  have hnn : ∀ i : Nat, 0 ≤ row_weight (g.rr_row i) := by
    intro i
    by_cases hi : i < g.size
    · exact row_weight_nonneg hwf hi
    · have hlen := hwf.2.1
      have hrow : g.rr_row i = [] := by
        unfold rr_row
        have hle : g.rr.length ≤ i := by omega
        exact List.getD_eq_default _ _ hle
      rw [hrow]
      simp [row_weight]
  have hsub : ∀ i ∈ r :: vs, i ∈ List.range g.size := by
    intro i hi
    exact List.mem_range.mpr (pwalk_mem_lt h i hi)
  exact sum_map_le_of_subset (fun u => row_weight (g.rr_row u)) hnn
    (r :: vs) (List.range g.size) hnd (List.nodup_range _) hsub

/-- Crossing lemma: a walk from inside `S` to outside `S` uses a first
edge leaving `S`, and the walk up to that edge is no more expensive than
the whole walk. -/
theorem pwalk_cross {g : AnyNetGraph} (hwf : g.graph_wf) (S : Nat → Prop) :
    ∀ {r vs v c}, PWalk g r vs v c → S r → ¬ S v →
      ∃ x y w c₁, S x ∧ ¬ S y ∧ y < g.size ∧ g.edge x y w ∧
        (∃ vs₁, PWalk g r vs₁ x c₁) ∧ c₁ + w ≤ c := by
  intro r vs v c h
  induction h with
  | nil v' hv =>
    intro hS hnS
    exact absurd hS hnS
  | cons u x w vs' t' c' hu he hrest ih =>
    intro hS hnS
    by_cases hx : S x
    · obtain ⟨x', y, w', c₁, h1, h2, h3, h4, ⟨vs₁, h5⟩, h6⟩ := ih hx hnS
      exact ⟨x', y, w', w + c₁, h1, h2, h3, h4,
        ⟨x :: vs₁, PWalk.cons u x w vs₁ x' c₁ hu he h5⟩, by omega⟩
    · have hc' : 0 ≤ c' := pwalk_cost_nonneg hwf hrest
      exact ⟨u, x, w, 0, hS, hx, pwalk_src_lt hrest, he,
        ⟨[], PWalk.nil u hu⟩, by omega⟩

/-! ### Characterization of the min-search `find_min` -/

theorem find_min_le_acc (dist : List Int) :
    ∀ (l : List Nat) (acc : Int × Int), (find_min dist l acc).1 ≤ acc.1 := by
  intro l
  induction l with
  | nil => intro acc; exact le_refl _
  | cons a l ih =>
    intro acc
    simp only [find_min]
    by_cases h : dist.getD a 0 < acc.1
    · rw [if_pos h]
      exact le_trans (ih _) (le_of_lt h)
    · rw [if_neg h]
      exact ih acc

theorem find_min_le_mem (dist : List Int) :
    ∀ (l : List Nat) (acc : Int × Int) (v : Nat), v ∈ l →
      (find_min dist l acc).1 ≤ dist.getD v 0 := by
  intro l
  induction l with
  | nil => intro acc v hv; cases hv
  | cons a l ih =>
    intro acc v hv
    simp only [find_min]
    rcases List.mem_cons.mp hv with rfl | hv'
    · by_cases h : dist.getD v 0 < acc.1
      · rw [if_pos h]
        exact find_min_le_acc dist l _
      · rw [if_neg h]
        exact le_trans (find_min_le_acc dist l acc) (le_of_not_lt h)
    · by_cases h : dist.getD a 0 < acc.1
      · rw [if_pos h]
        exact ih _ v hv'
      · rw [if_neg h]
        exact ih _ v hv'

theorem find_min_cases (dist : List Int) :
    ∀ (l : List Nat) (acc : Int × Int),
      find_min dist l acc = acc ∨
        ∃ v ∈ l, find_min dist l acc = (dist.getD v 0, (v : Int)) ∧
          dist.getD v 0 < acc.1 := by
  intro l
  induction l with
  | nil => intro acc; exact Or.inl rfl
  | cons a l ih =>
    intro acc
    simp only [find_min]
    by_cases h : dist.getD a 0 < acc.1
    · rw [if_pos h]
      rcases ih (dist.getD a 0, (a : Int)) with heq | ⟨v, hv, heq, hlt⟩
      · exact Or.inr ⟨a, List.mem_cons_self _ _, heq, h⟩
      · exact Or.inr ⟨v, List.mem_cons_of_mem _ hv, heq, lt_trans hlt h⟩
    · rw [if_neg h]
      rcases ih acc with heq | ⟨v, hv, heq, hlt⟩
      · exact Or.inl heq
      · exact Or.inr ⟨v, List.mem_cons_of_mem _ hv, heq, hlt⟩

/-! ### Characterization of the relaxation pass -/

theorem relax_length (u : Nat) (du : Int) :
    ∀ (links : LinkMap) (dist prev : List Int),
      (relax u du dist prev links).1.length = dist.length ∧
      (relax u du dist prev links).2.length = prev.length := by
  intro links
  induction links with
  | nil => intro dist prev; exact ⟨rfl, rfl⟩
  | cons e rest ih =>
    intro dist prev
    obtain ⟨v, p, w⟩ := e
    simp only [relax]
    by_cases h : du + w < dist.getD v.toNat 0
    · rw [if_pos h]
      refine ⟨?_, ?_⟩
      · rw [(ih _ _).1, List.length_set]
      · rw [(ih _ _).2, List.length_set]
    · rw [if_neg h]
      exact ih dist prev

/-- An index no entry improves keeps its distance and predecessor. -/
theorem relax_untouched (u : Nat) (du : Int) (j : Nat) :
    ∀ (links : LinkMap) (dist prev : List Int),
      (∀ e ∈ links, e.1.toNat = j → ¬ du + e.2.2 < dist.getD j 0) →
      (relax u du dist prev links).1.getD j 0 = dist.getD j 0 ∧
      (relax u du dist prev links).2.getD j (-1) = prev.getD j (-1) := by
  intro links
  induction links with
  | nil => intro dist prev _; exact ⟨rfl, rfl⟩
  | cons e rest ih =>
    intro dist prev hno
    obtain ⟨v, p, w⟩ := e
    simp only [relax]
    by_cases h : du + w < dist.getD v.toNat 0
    · rw [if_pos h]
      have hvj : v.toNat ≠ j := by
        intro hvj
        exact hno (v, p, w) (List.mem_cons_self _ _) hvj (hvj ▸ h)
      have hs1 : (dist.set v.toNat (du + w)).getD j 0 = dist.getD j 0 := by
        simp only [List.getD, List.get?_eq_getElem?, List.getElem?_set_ne hvj]
      have hs2 : (prev.set v.toNat (u : Int)).getD j (-1) = prev.getD j (-1) := by
        simp only [List.getD, List.get?_eq_getElem?, List.getElem?_set_ne hvj]
      have hno' : ∀ e ∈ rest, e.1.toNat = j →
          ¬ du + e.2.2 < (dist.set v.toNat (du + w)).getD j 0 := by
        intro e he hej
        rw [hs1]
        exact hno e (List.mem_cons_of_mem _ he) hej
      obtain ⟨ih1, ih2⟩ := ih (dist.set v.toNat (du + w))
        (prev.set v.toNat (u : Int)) hno'
      exact ⟨ih1.trans hs1, ih2.trans hs2⟩
    · rw [if_neg h]
      apply ih
      intro e he hej
      exact hno e (List.mem_cons_of_mem _ he) hej

/-- An entry that improves its target (with duplicate-free targets) sets the
distance to `du + w` and the predecessor to `u`. -/
theorem relax_updated (u : Nat) (du : Int) :
    ∀ (links : LinkMap) (dist prev : List Int) (e : Int × Int × Int),
      ((links.map fun e => e.1.toNat)).Nodup →
      e ∈ links → e.1.toNat < dist.length → e.1.toNat < prev.length →
      du + e.2.2 < dist.getD e.1.toNat 0 →
      (relax u du dist prev links).1.getD e.1.toNat 0 = du + e.2.2 ∧
      (relax u du dist prev links).2.getD e.1.toNat (-1) = (u : Int) := by
  intro links
  induction links with
  | nil => intro dist prev e _ he; cases he
  | cons e₀ rest ih =>
    intro dist prev e hnd he hjd hjp himp
    obtain ⟨v, p, w⟩ := e₀
    rw [List.map_cons, List.nodup_cons] at hnd
    simp only [relax]
    rcases List.mem_cons.mp he with rfl | he'
    · rw [if_pos himp]
      have hno : ∀ e' ∈ rest, e'.1.toNat = (v, p, w).1.toNat →
          ¬ du + e'.2.2 <
            (dist.set (v, p, w).1.toNat (du + (v, p, w).2.2)).getD
              (v, p, w).1.toNat 0 := by
        intro e' he' hej _
        exact hnd.1 (hej ▸ List.mem_map.mpr ⟨e', he', rfl⟩)
      obtain ⟨h1, h2⟩ := relax_untouched u du (v, p, w).1.toNat rest
        (dist.set (v, p, w).1.toNat (du + (v, p, w).2.2))
        (prev.set (v, p, w).1.toNat (u : Int)) hno
      refine ⟨?_, ?_⟩
      · rw [h1]
        simp only [List.getD, List.get?_eq_getElem?]
        rw [List.getElem?_set_self hjd]
        rfl
      · rw [h2]
        simp only [List.getD, List.get?_eq_getElem?]
        rw [List.getElem?_set_self hjp]
        rfl
    · have hvj : v.toNat ≠ e.1.toNat := by
        intro hq
        exact hnd.1 (hq ▸ List.mem_map.mpr ⟨e, he', rfl⟩)
      by_cases h : du + w < dist.getD v.toNat 0
      · rw [if_pos h]
        have hset : (dist.set v.toNat (du + w)).getD e.1.toNat 0 =
            dist.getD e.1.toNat 0 := by
          simp only [List.getD, List.get?_eq_getElem?,
            List.getElem?_set_ne hvj]
        refine ih _ _ e hnd.2 he' ?_ ?_ ?_
        · rw [List.length_set]; exact hjd
        · rw [List.length_set]; exact hjp
        · rw [hset]; exact himp
      · rw [if_neg h]
        exact ih dist prev e hnd.2 he' hjd hjp himp

/-! ### The Dijkstra loop invariant -/

theorem nodup_toNat_keys {g : AnyNetGraph} (hwf : g.graph_wf) {u : Nat}
    (hu : u < g.size) : ((g.rr_row u).map fun e => e.1.toNat).Nodup := by
  have h1 := hwf.2.2.2.1 u hu
  have h2 : ((g.rr_row u).map fun e => e.1.toNat) =
      ((g.rr_row u).map fun e => e.1).map Int.toNat := by
    rw [List.map_map]
    rfl
  rw [h2]
  refine List.Nodup.map_on ?_ h1
  intro x hx y hy hxy
  obtain ⟨e, he, rfl⟩ := List.mem_map.mp hx
  obtain ⟨e', he', rfl⟩ := List.mem_map.mp hy
  have hx1 := (hwf.2.2.2.2.2.1 u hu e he).1
  have hy1 := (hwf.2.2.2.2.2.1 u hu e' he').1
  omega

theorem edge_unique {g : AnyNetGraph} {u v : Nat} {w w' : Int}
    (h1 : g.edge u v w) (h2 : g.edge u v w') : w = w' := by
  obtain ⟨p, hp⟩ := h1
  obtain ⟨p', hp'⟩ := h2
  rw [hp] at hp'
  have := Option.some.inj hp'
  exact congrArg (fun x => x.2) this

theorem edge_dst_lt {g : AnyNetGraph} (hwf : g.graph_wf) {u v : Nat}
    {w : Int} (hu : u < g.size) (he : g.edge u v w) :
    v < g.size ∧ 0 < w := by
  obtain ⟨p, hp⟩ := he
  have hm := omap_find?_mem hp
  have h6 := hwf.2.2.2.2.2.1 u hu _ hm
  refine ⟨?_, h6.2.2⟩
  have := h6.2.1
  simpa using this

/-- Per-index dichotomy of one relaxation pass over the row of `u`: every
index is either untouched (no improving entry) or set to `du + w` along the
unique channel `u → j` of latency `w`, with the predecessor set to `u`. -/
theorem relax_dich {g : AnyNetGraph} (hwf : g.graph_wf) {u : Nat}
    (hu : u < g.size) (du : Int) (dist prev : List Int)
    (hdl : dist.length = g.size) (hpl : prev.length = g.size)
    (j : Nat) (hj : j < g.size) :
    ((∀ e ∈ g.rr_row u, e.1.toNat = j → ¬ du + e.2.2 < dist.getD j 0) ∧
      (relax u du dist prev (g.rr_row u)).1.getD j 0 = dist.getD j 0 ∧
      (relax u du dist prev (g.rr_row u)).2.getD j (-1) =
        prev.getD j (-1)) ∨
    (∃ w, g.edge u j w ∧ du + w < dist.getD j 0 ∧
      (relax u du dist prev (g.rr_row u)).1.getD j 0 = du + w ∧
      (relax u du dist prev (g.rr_row u)).2.getD j (-1) = (u : Int)) := by
  by_cases himp : ∃ e ∈ g.rr_row u, e.1.toNat = j ∧
      du + e.2.2 < dist.getD j 0
  · obtain ⟨e, he, hej, hlt⟩ := himp
    right
    have hkey := (hwf.2.2.2.2.2.1 u hu e he).1
    have he1 : e.1 = (j : Int) := by omega
    refine ⟨e.2.2, ⟨e.2.1, ?_⟩, hlt, ?_, ?_⟩
    · refine mem_omap_find? (hwf.2.2.2.1 u hu) ?_
      rw [← he1]
      exact he
    · have := (relax_updated u du (g.rr_row u) dist prev e
        (nodup_toNat_keys hwf hu) he (by omega) (by omega)
        (by rw [hej]; exact hlt)).1
      rw [hej] at this
      exact this
    · have := (relax_updated u du (g.rr_row u) dist prev e
        (nodup_toNat_keys hwf hu) he (by omega) (by omega)
        (by rw [hej]; exact hlt)).2
      rw [hej] at this
      exact this
  · left
    push_neg at himp
    refine ⟨fun e he hej => not_lt.mpr (himp e he hej), ?_⟩
    exact relax_untouched u du j (g.rr_row u) dist prev
      (fun e he hej => not_lt.mpr (himp e he hej))

/-- Loop invariant of `route`'s Dijkstra phase, over the settled set (the
routers no longer in `rlist`): lengths, node ranges, source pinned at
distance 0 with no predecessor, settled distances exactly minimal, fringe
distances bounded by every settled in-edge, all distances in `[0, INT_MAX]`,
and predecessors recording a settled in-edge whose latency accounts exactly
for the distance. -/
structure DijkInv (g : AnyNetGraph) (r : Nat) (R : List Nat)
    (D P : List Int) : Prop where
  hdl : D.length = g.size
  hpl : P.length = g.size
  hsub : ∀ v ∈ R, v < g.size
  hnd : R.Nodup
  hr0 : D.getD r 0 = 0 ∧ P.getD r (-1) = -1
  hA : ∀ v, v < g.size → v ∉ R → IsMinDist g r v (D.getD v 0)
  hB : ∀ v ∈ R, ∀ u, u < g.size → u ∉ R → ∀ w, g.edge u v w →
    D.getD v 0 ≤ D.getD u 0 + w
  hC : ∀ v, v < g.size → 0 ≤ D.getD v 0 ∧ D.getD v 0 ≤ INT_MAX
  hD : ∀ v, v < g.size → P.getD v (-1) = -1 ∨
    ∃ (u : Nat) (w : Int), P.getD v (-1) = (u : Int) ∧ u < g.size ∧
      u ∉ R ∧ g.edge u v w ∧ D.getD v 0 = D.getD u 0 + w
  hE : ∀ v, v < g.size → P.getD v (-1) = -1 → v = r ∨ D.getD v 0 = INT_MAX

/-- The extracted minimum really is the shortest-walk distance (crossing
argument over the settled boundary). -/
theorem dijkstra_extract {g : AnyNetGraph} {r : Nat} {R : List Nat}
    {D P : List Int} (hwf : g.graph_wf) (hr : r < g.size)
    (inv : DijkInv g r R D P) {u : Nat} (huR : u ∈ R)
    (hufin : D.getD u 0 < INT_MAX)
    (humin : ∀ v ∈ R, D.getD u 0 ≤ D.getD v 0) :
    IsMinDist g r u (D.getD u 0) := by
  constructor
  · by_cases hpu : P.getD u (-1) = -1
    · rcases inv.hE u (inv.hsub u huR) hpu with heq | hmax
      · exact ⟨[], by rw [heq, inv.hr0.1]; exact PWalk.nil r hr⟩
      · exact absurd hmax (by omega)
    · rcases inv.hD u (inv.hsub u huR) with hpe |
        ⟨u', w, hpe, hu's, hu'R, hedge, hdeq⟩
      · exact absurd hpe hpu
      · obtain ⟨vs, hw⟩ := (inv.hA u' hu's hu'R).1
        refine ⟨vs ++ [u], ?_⟩
        rw [hdeq]
        exact pwalk_append hw (pwalk_single hu's (inv.hsub u huR) hedge)
  · intro vs c hwalk
    by_cases hrR : r ∈ R
    · have h1 := humin r hrR
      rw [inv.hr0.1] at h1
      have h2 := pwalk_cost_nonneg hwf hwalk
      omega
    · obtain ⟨x, y, w, c₁, ⟨hxs, hxR⟩, hnSy, hys, hxy, ⟨vs₁, hw₁⟩, hle⟩ :=
        pwalk_cross hwf (fun z => z < g.size ∧ z ∉ R) hwalk
          ⟨hr, hrR⟩ (fun hc => hc.2 huR)
      have hyR : y ∈ R := by
        by_contra hyR'
        exact hnSy ⟨hys, hyR'⟩
      have h1 : D.getD x 0 ≤ c₁ := (inv.hA x hxs hxR).2 vs₁ c₁ hw₁
      have h2 : D.getD y 0 ≤ D.getD x 0 + w := inv.hB y hyR x hxs hxR w hxy
      have h3 := humin y hyR
      omega

/-- One Dijkstra iteration (extract the minimum, relax its row, erase it)
preserves the invariant. -/
theorem dijkstra_preserve {g : AnyNetGraph} {r : Nat} {R : List Nat}
    {D P : List Int} (hwf : g.graph_wf) (hr : r < g.size)
    (inv : DijkInv g r R D P) {u : Nat} (huR : u ∈ R)
    (hufin : D.getD u 0 < INT_MAX)
    (humin : ∀ v ∈ R, D.getD u 0 ≤ D.getD v 0) :
    DijkInv g r (R.erase u)
      (relax u (D.getD u 0) D P (g.rr_row u)).1
      (relax u (D.getD u 0) D P (g.rr_row u)).2 := by
  have hus : u < g.size := inv.hsub u huR
  have hmin := dijkstra_extract hwf hr inv huR hufin humin
  have hdich := fun j (hj : j < g.size) =>
    relax_dich hwf hus (D.getD u 0) D P inv.hdl inv.hpl j hj
  have hunR' : u ∉ R.erase u := fun hin =>
    ((List.Nodup.mem_erase_iff inv.hnd).mp hin).1 rfl
  have hstab : ∀ x, x < g.size → x ∉ R.erase u →
      (relax u (D.getD u 0) D P (g.rr_row u)).1.getD x 0 = D.getD x 0 ∧
      (relax u (D.getD u 0) D P (g.rr_row u)).2.getD x (-1) =
        P.getD x (-1) := by
    intro x hx hxR
    rcases hdich x hx with ⟨_, h1, h2⟩ | ⟨w, hedge, hlt, _, _⟩
    · exact ⟨h1, h2⟩
    · exfalso
      by_cases hxu : x = u
      · subst hxu
        have hw := (edge_dst_lt hwf hus hedge).2
        omega
      · have hxRR : x ∉ R := fun hxin =>
          hxR ((List.mem_erase_of_ne hxu).mpr hxin)
        have hAx := inv.hA x hx hxRR
        obtain ⟨vsu, hwu⟩ := hmin.1
        have hwalk := pwalk_append hwu (pwalk_single hus hx hedge)
        have := hAx.2 _ _ hwalk
        omega
  refine ⟨?_, ?_, ?_, ?_, ?_, ?_, ?_, ?_, ?_, ?_⟩
  · rw [(relax_length u (D.getD u 0) (g.rr_row u) D P).1]
    exact inv.hdl
  · rw [(relax_length u (D.getD u 0) (g.rr_row u) D P).2]
    exact inv.hpl
  · intro v hv
    exact inv.hsub v (List.mem_of_mem_erase hv)
  · exact inv.hnd.erase u
  · rcases hdich r hr with ⟨_, h1, h2⟩ | ⟨w, hedge, hlt, _, _⟩
    · rw [h1, h2]
      exact inv.hr0
    · exfalso
      have hw := (edge_dst_lt hwf hus hedge).2
      have h2 := (inv.hC u hus).1
      have h3 := inv.hr0.1
      omega
  · intro v hv hvR
    rw [(hstab v hv hvR).1]
    by_cases hvu : v = u
    · subst hvu
      exact hmin
    · exact inv.hA v hv (fun hvin => hvR ((List.mem_erase_of_ne hvu).mpr hvin))
  · intro v hvR' x hx hxR' w hedge
    have hvR : v ∈ R := List.mem_of_mem_erase hvR'
    rw [(hstab x hx hxR').1]
    by_cases hxu : x = u
    · subst hxu
      rcases hdich v (inv.hsub v hvR) with ⟨hno, h1, _⟩ |
          ⟨w', hedge', hlt', h1, _⟩
      · rw [h1]
        obtain ⟨p, hp⟩ := hedge
        have hm := omap_find?_mem hp
        have h5 : ¬ D.getD x 0 + w < D.getD v 0 := hno _ hm (by simp)
        omega
      · rw [h1]
        have hww : w' = w := edge_unique hedge' hedge
        omega
    · have hxRR : x ∉ R := fun hxin =>
        hxR' ((List.mem_erase_of_ne hxu).mpr hxin)
      have hold := inv.hB v hvR x hx hxRR w hedge
      have hdec : (relax u (D.getD u 0) D P (g.rr_row u)).1.getD v 0 ≤
          D.getD v 0 := by
        rcases hdich v (inv.hsub v hvR) with ⟨_, h1, _⟩ |
            ⟨w', _, hlt', h1, _⟩
        · rw [h1]
        · rw [h1]; omega
      omega
  · intro v hv
    rcases hdich v hv with ⟨_, h1, _⟩ | ⟨w, hedge, hlt, h1, _⟩
    · rw [h1]
      exact inv.hC v hv
    · rw [h1]
      have hw := (edge_dst_lt hwf hus hedge).2
      have h2 := (inv.hC u hus).1
      have h3 := (inv.hC v hv).2
      omega
  · intro v hv
    rcases hdich v hv with ⟨_, h1, h2⟩ | ⟨w, hedge, hlt, h1, h2⟩
    · rw [h1, h2]
      rcases inv.hD v hv with hpe |
          ⟨u', w', hpe, hu's, hu'R, hedge', hdeq⟩
      · exact Or.inl hpe
      · right
        refine ⟨u', w', hpe, hu's,
          fun hin => hu'R (List.mem_of_mem_erase hin), hedge', ?_⟩
        rw [(hstab u' hu's
          (fun hin => hu'R (List.mem_of_mem_erase hin))).1]
        exact hdeq
    · right
      refine ⟨u, w, h2, hus, hunR', hedge, ?_⟩
      rw [h1, (hstab u hus hunR').1]
  · intro v hv hpe'
    rcases hdich v hv with ⟨_, h1, h2⟩ | ⟨w, hedge, hlt, h1, h2⟩
    · rw [h2] at hpe'
      rcases inv.hE v hv hpe' with heq | hmax
      · exact Or.inl heq
      · right
        rw [h1, hmax]
    · rw [h2] at hpe'
      exfalso
      omega

/-- Whenever routers remain and the graph is connected with total latency
below `INT_MAX`, some remaining router has a finite tentative distance, so
`min_cand` is found and the C++ loop makes progress. -/
theorem dijkstra_progress {g : AnyNetGraph} {r : Nat} {R : List Nat}
    {D P : List Int} (hwf : g.graph_wf) (hr : r < g.size)
    (hconn : g.connected_b = true) (htw : g.total_weight < INT_MAX)
    (inv : DijkInv g r R D P) (hne : R ≠ []) :
    ∃ v ∈ R, D.getD v 0 < INT_MAX := by
  obtain ⟨v₀, hv₀⟩ := List.exists_mem_of_ne_nil R hne
  by_cases hrR : r ∈ R
  · exact ⟨r, hrR, by rw [inv.hr0.1]; decide⟩
  · have hconn' : ∀ a, a < g.size → ∀ b, b < g.size → b ∈ reach g a g.size := by
      unfold connected_b at hconn
      exact of_decide_eq_true hconn
    have hv₀s := inv.hsub v₀ hv₀
    obtain ⟨vs, c, hwalk, hnd⟩ :=
      reach_sound hwf hr g.size v₀ (hconn' r hr v₀ hv₀s)
    have hb := pwalk_nodup_bound hwf hwalk hnd
    have hrow : 0 ≤ row_weight (g.rr_row v₀) := row_weight_nonneg hwf hv₀s
    obtain ⟨x, y, w, c₁, ⟨hxs, hxR⟩, hnSy, hys, hxy, ⟨vs₁, hw₁⟩, hle⟩ :=
      pwalk_cross hwf (fun z => z < g.size ∧ z ∉ R) hwalk
        ⟨hr, hrR⟩ (fun hc => hc.2 hv₀)
    have hyR : y ∈ R := by
      by_contra hyR'
      exact hnSy ⟨hys, hyR'⟩
    have h1 : D.getD x 0 ≤ c₁ := (inv.hA x hxs hxR).2 vs₁ c₁ hw₁
    have h2 : D.getD y 0 ≤ D.getD x 0 + w := inv.hB y hyR x hxs hxR w hxy
    exact ⟨y, hyR, by omega⟩

theorem dijkstra_loop_step (g : AnyNetGraph) (fuel : Nat)
    (rlist : List Nat) (dist prev : List Int) (hne : ¬ rlist = [])
    (hmc : ¬ (find_min dist rlist (INT_MAX, -1)).2 = -1) :
    dijkstra_loop g (fuel + 1) rlist dist prev =
      dijkstra_loop g fuel
        (rlist.erase (find_min dist rlist (INT_MAX, -1)).2.toNat)
        (relax (find_min dist rlist (INT_MAX, -1)).2.toNat
          (dist.getD (find_min dist rlist (INT_MAX, -1)).2.toNat 0)
          dist prev
          (g.rr_row (find_min dist rlist (INT_MAX, -1)).2.toNat)).1
        (relax (find_min dist rlist (INT_MAX, -1)).2.toNat
          (dist.getD (find_min dist rlist (INT_MAX, -1)).2.toNat 0)
          dist prev
          (g.rr_row (find_min dist rlist (INT_MAX, -1)).2.toNat)).2 := by
  simp only [dijkstra_loop]
  rw [if_neg hne, if_neg hmc]

/-- On a well-formed, connected topology whose total latency is below
`INT_MAX`, the Dijkstra loop terminates within `|rlist|` iterations and
settles every router at its exact shortest distance. -/
theorem dijkstra_loop_ok {g : AnyNetGraph} {r : Nat} (hwf : g.graph_wf)
    (hr : r < g.size) (hconn : g.connected_b = true)
    (htw : g.total_weight < INT_MAX) :
    ∀ (fuel : Nat) (R : List Nat) (D P : List Int), R.length ≤ fuel →
      DijkInv g r R D P →
      ∃ D' P', dijkstra_loop g fuel R D P = some (D', P') ∧
        DijkInv g r [] D' P' := by
  intro fuel
  induction fuel with
  | zero =>
    intro R D P hlen inv
    have hRe : R = [] := List.length_eq_zero.mp (Nat.le_zero.mp hlen)
    subst hRe
    exact ⟨D, P, by simp [dijkstra_loop], inv⟩
  | succ fuel ih =>
    intro R D P hlen inv
    by_cases hRe : R = []
    · subst hRe
      exact ⟨D, P, by simp [dijkstra_loop], inv⟩
    · obtain ⟨v₁, hv₁, hfin₁⟩ := dijkstra_progress hwf hr hconn htw inv hRe
      rcases find_min_cases D R (INT_MAX, -1) with heq | ⟨v, hvR, heq, hlt⟩
      · exfalso
        have h1 := find_min_le_mem D R (INT_MAX, -1) v₁ hv₁
        rw [heq] at h1
        have h1' : INT_MAX ≤ D.getD v₁ 0 := h1
        omega
      · have hmc : ¬ (find_min D R (INT_MAX, -1)).2 = -1 := by
          rw [heq]
          intro hcon
          have hcon' : ((v : Int)) = -1 := hcon
          omega
        have hstep := dijkstra_loop_step g fuel R D P hRe hmc
        rw [heq] at hstep
        simp only [Int.toNat_natCast] at hstep
        have humin : ∀ v' ∈ R, D.getD v 0 ≤ D.getD v' 0 := by
          intro v' hv'
          have h1 := find_min_le_mem D R (INT_MAX, -1) v' hv'
          rw [heq] at h1
          exact h1
        have hufin : D.getD v 0 < INT_MAX := hlt
        have inv' := dijkstra_preserve hwf hr inv hvR hufin humin
        have hlen' : (R.erase v).length ≤ fuel := by
          have h1 := List.length_erase_of_mem hvR
          have hpos : 0 < R.length := List.length_pos.mpr hRe
          omega
        obtain ⟨D', P', heq', hinv''⟩ := ih (R.erase v) _ _ hlen' inv'
        exact ⟨D', P', by rw [hstep]; exact heq', hinv''⟩

theorem dist0_getD {g : AnyNetGraph} {r : Nat} (hr : r < g.size) (v : Nat)
    (hv : v < g.size) :
    ((List.replicate g.size INT_MAX).set r 0).getD v 0 =
      if v = r then 0 else INT_MAX := by
  by_cases hvr : v = r
  · subst hvr
    rw [if_pos rfl]
    simp only [List.getD, List.get?_eq_getElem?]
    rw [List.getElem?_set_self (by rw [List.length_replicate]; exact hr)]
    rfl
  · rw [if_neg hvr]
    simp only [List.getD, List.get?_eq_getElem?]
    rw [List.getElem?_set_ne (fun h => hvr h.symm)]
    simp [List.getElem?_replicate, hv]

theorem prev0_getD {g : AnyNetGraph} (v : Nat) (hv : v < g.size) :
    (List.replicate g.size (-1 : Int)).getD v (-1) = -1 := by
  simp [List.getD, List.get?_eq_getElem?, List.getElem?_replicate, hv]

/-- The invariant holds at `route`'s initial state: `dist[r] = 0`, every
other distance `INT_MAX`, all predecessors `-1`, every router pending. -/
theorem dijkstra_init {g : AnyNetGraph} {r : Nat} (hwf : g.graph_wf)
    (hr : r < g.size) :
    DijkInv g r (List.range g.size)
      ((List.replicate g.size INT_MAX).set r 0)
      (List.replicate g.size (-1)) := by
  refine ⟨?_, ?_, ?_, ?_, ?_, ?_, ?_, ?_, ?_, ?_⟩
  · rw [List.length_set, List.length_replicate]
  · rw [List.length_replicate]
  · intro v hv
    exact List.mem_range.mp hv
  · exact List.nodup_range _
  · refine ⟨?_, prev0_getD r hr⟩
    rw [dist0_getD hr r hr, if_pos rfl]
  · intro v hv hvR
    exact absurd (List.mem_range.mpr hv) hvR
  · intro v hvR x hx hxR w _
    exact absurd (List.mem_range.mpr hx) hxR
  · intro v hv
    rw [dist0_getD hr v hv]
    by_cases hvr : v = r
    · rw [if_pos hvr]
      exact ⟨le_refl 0, by decide⟩
    · rw [if_neg hvr]
      exact ⟨by decide, le_refl _⟩
  · intro v hv
    exact Or.inl (prev0_getD v hv)
  · intro v hv _
    rw [dist0_getD hr v hv]
    by_cases hvr : v = r
    · exact Or.inl hvr
    · rw [if_neg hvr]
      exact Or.inr rfl

/-- On a connected topology with total latency below `INT_MAX`, every final
distance is finite. -/
theorem dijkstra_endstate_fin {g : AnyNetGraph} {r : Nat} {D P : List Int}
    (hwf : g.graph_wf) (hr : r < g.size) (hconn : g.connected_b = true)
    (htw : g.total_weight < INT_MAX) (inv : DijkInv g r [] D P) :
    ∀ v, v < g.size → D.getD v 0 < INT_MAX := by
  intro v hv
  have hconn' : v ∈ reach g r g.size := by
    unfold connected_b at hconn
    exact of_decide_eq_true hconn r hr v hv
  obtain ⟨vs, c, hwalk, hnd⟩ := reach_sound hwf hr g.size v hconn'
  have hb := pwalk_nodup_bound hwf hwalk hnd
  have hrow := row_weight_nonneg hwf hv
  have hmin := (inv.hA v hv (List.not_mem_nil v)).2 vs c hwalk
  omega

/-- The back-walk of `route`'s post-processing follows the predecessor
chain from `v` to the first hop `fh` out of `r`, never fails its channel
assertion, and accumulates exactly `dist[v]`; the chain also yields a
forward walk `fh ⇝ v` of cost `dist[v] - dist[fh]`. -/
theorem walk_first_hop_ok {g : AnyNetGraph} {r : Nat} {D P : List Int}
    (hwf : g.graph_wf) (hr : r < g.size) (inv : DijkInv g r [] D P)
    (hfin : ∀ x, x < g.size → D.getD x 0 < INT_MAX) :
    ∀ (n : Nat) (v : Nat), v < g.size → v ≠ r → (D.getD v 0).toNat < n →
      ∀ dacc : Int, ∃ fh : Nat, fh < g.size ∧
        P.getD fh (-1) = (r : Int) ∧
        (∃ vs, PWalk g fh vs v (D.getD v 0 - D.getD fh 0)) ∧
        walk_first_hop g P r n v dacc = .ok (fh, dacc + D.getD v 0) := by
  intro n
  induction n with
  | zero =>
    intro v hv hvr hto dacc
    omega
  | succ n ih =>
    intro v hv hvr hto dacc
    have hpne : ¬ P.getD v (-1) = -1 := by
      intro hpe
      rcases inv.hE v hv hpe with heq | hmax
      · exact hvr heq
      · have := hfin v hv
        omega
    rcases inv.hD v hv with hpe | ⟨u', w, hpe, hu's, _, hedge, hdeq⟩
    · exact absurd hpe hpne
    · by_cases hur : u' = r
      · subst hur
        obtain ⟨p, hp⟩ := hedge
        refine ⟨v, hv, hpe, ⟨[], ?_⟩, ?_⟩
        · rw [sub_self]
          exact PWalk.nil v hv
        · simp only [walk_first_hop]
          rw [hpe, if_pos rfl, hp]
          have hw : D.getD v 0 = w := by
            rw [hdeq, inv.hr0.1]
            omega
          rw [hw]
          rfl
      · have hne2 : ¬ ((u' : Int) = (r : Int)) :=
          fun hcon => hur (by exact_mod_cast hcon)
        obtain ⟨p, hp⟩ := hedge
        have hm := omap_find?_mem hp
        have hrev := hwf.2.2.2.2.2.2.1 u' hu's _ hm
        simp only [Int.toNat_natCast] at hrev
        have hwpos : 0 < w := (edge_dst_lt hwf hu's ⟨p, hp⟩).2
        have hnn := (inv.hC u' hu's).1
        have hto' : (D.getD u' 0).toNat < n := by omega
        obtain ⟨fh, hfh, hpfh, ⟨vs, hwalk⟩, heq⟩ :=
          ih u' hu's hur hto' (dacc + w)
        refine ⟨fh, hfh, hpfh, ⟨vs ++ [v], ?_⟩, ?_⟩
        · have hext := pwalk_append hwalk (pwalk_single hu's hv ⟨p, hp⟩)
          have hceq : D.getD u' 0 - D.getD fh 0 + w =
              D.getD v 0 - D.getD fh 0 := by omega
          rw [hceq] at hext
          exact hext
        · simp only [walk_first_hop]
          rw [hpe, if_neg hne2, if_pos hrev]
          simp only [Int.toNat_natCast]
          rw [hp]
          show walk_first_hop g P r n u' (dacc + w) = _
          rw [heq, show dacc + w + D.getD u' 0 = dacc + D.getD v 0 from
            by omega]

/-! ### Lookup characterization of the table-building folds -/

theorem table_add_nodes_ne (port d : Int) :
    ∀ (links : LinkMap) (table : List (Int × Int)),
      (∀ e ∈ links, e.1 ≠ d) →
      omap_find? (table_add_nodes links port table) d =
        omap_find? table d := by
  intro links
  induction links with
  | nil => intro table _; rfl
  | cons e rest ih =>
    intro table hne
    have hstep : table_add_nodes (e :: rest) port table =
        table_add_nodes rest port (omap_insert table e.1 port) := rfl
    rw [hstep, ih _ (fun e' he' => hne e' (List.mem_cons_of_mem _ he'))]
    exact omap_find?_insert_ne table e.1 d port
      (Ne.symm (hne e (List.mem_cons_self _ _)))

theorem table_add_nodes_mem (port : Int) :
    ∀ (links : LinkMap) (table : List (Int × Int)) (e : Int × Int × Int),
      ((links.map fun e => e.1)).Nodup → e ∈ links →
      omap_find? (table_add_nodes links port table) e.1 = some port := by
  intro links
  induction links with
  | nil => intro table e _ he; cases he
  | cons e₀ rest ih =>
    intro table e hnd he
    rw [List.map_cons, List.nodup_cons] at hnd
    have hstep : table_add_nodes (e₀ :: rest) port table =
        table_add_nodes rest port (omap_insert table e₀.1 port) := rfl
    rw [hstep]
    rcases List.mem_cons.mp he with rfl | he'
    · have hne' : ∀ e' ∈ rest, e'.1 ≠ e.1 := by
        intro e' he' hq
        exact hnd.1 (hq ▸ List.mem_map.mpr ⟨e', he', rfl⟩)
      rw [table_add_nodes_ne port e.1 rest (omap_insert table e.1 port) hne']
      exact omap_find?_insert_self table e.1 port
    · exact ih _ e hnd.2 he'

theorem table_add_eject_ne (d : Int) :
    ∀ (links : LinkMap) (table : List (Int × Int)),
      (∀ e ∈ links, e.1 ≠ d) →
      omap_find? (table_add_eject links table) d = omap_find? table d := by
  intro links
  induction links with
  | nil => intro table _; rfl
  | cons e rest ih =>
    intro table hne
    have hstep : table_add_eject (e :: rest) table =
        table_add_eject rest (omap_insert table e.1 e.2.1) := rfl
    rw [hstep, ih _ (fun e' he' => hne e' (List.mem_cons_of_mem _ he'))]
    exact omap_find?_insert_ne table e.1 d e.2.1
      (Ne.symm (hne e (List.mem_cons_self _ _)))

theorem table_add_eject_mem :
    ∀ (links : LinkMap) (table : List (Int × Int)) (e : Int × Int × Int),
      ((links.map fun e => e.1)).Nodup → e ∈ links →
      omap_find? (table_add_eject links table) e.1 = some e.2.1 := by
  intro links
  induction links with
  | nil => intro table e _ he; cases he
  | cons e₀ rest ih =>
    intro table e hnd he
    rw [List.map_cons, List.nodup_cons] at hnd
    have hstep : table_add_eject (e₀ :: rest) table =
        table_add_eject rest (omap_insert table e₀.1 e₀.2.1) := rfl
    rw [hstep]
    rcases List.mem_cons.mp he with rfl | he'
    · have hne' : ∀ e' ∈ rest, e'.1 ≠ e.1 := by
        intro e' he' hq
        exact hnd.1 (hq ▸ List.mem_map.mpr ⟨e', he', rfl⟩)
      rw [table_add_eject_ne e.1 rest (omap_insert table e.1 e.2.1) hne']
      exact omap_find?_insert_self table e.1 e.2.1
    · exact ih _ e hnd.2 he'

/-- The first hop found by the back-walk heads a channel out of `r` whose
latency is exactly `dist[fh]`, the remaining chain is a minimum-latency walk
`fh ⇝ v`, and channel plus remainder realize the minimum from `r`. -/
theorem first_hop_spec {g : AnyNetGraph} {r : Nat} {D P : List Int}
    (hwf : g.graph_wf) (hr : r < g.size) (inv : DijkInv g r [] D P)
    {fh v : Nat} (hfh : fh < g.size) (hv : v < g.size)
    (hpfh : P.getD fh (-1) = (r : Int))
    (hwalk : ∃ vs, PWalk g fh vs v (D.getD v 0 - D.getD fh 0)) :
    ∃ p₀ w₀, omap_find? (g.rr_row r) (fh : Int) = some (p₀, w₀) ∧
      D.getD fh 0 = w₀ ∧
      IsMinDist g fh v (D.getD v 0 - D.getD fh 0) ∧
      IsMinDist g r v (w₀ + (D.getD v 0 - D.getD fh 0)) := by
  rcases inv.hD fh hfh with hpe | ⟨u', w', hpe, hu's, _, hedge, hdeq⟩
  · rw [hpfh] at hpe
    exact absurd hpe (by omega)
  · rw [hpfh] at hpe
    have hu'r : u' = r := by exact_mod_cast hpe.symm
    subst hu'r
    obtain ⟨p₀, hp₀⟩ := hedge
    have hDfh : D.getD fh 0 = w' := by
      rw [hdeq, inv.hr0.1]
      omega
    refine ⟨p₀, w', hp₀, hDfh, ⟨hwalk, ?_⟩, ?_⟩
    · intro vs' c'' hw''
      have hpre := pwalk_append (pwalk_single hr hfh ⟨p₀, hp₀⟩) hw''
      have hmin := (inv.hA v hv (List.not_mem_nil v)).2 _ _ hpre
      omega
    · have hc : w' + (D.getD v 0 - D.getD fh 0) = D.getD v 0 := by omega
      rw [hc]
      exact inv.hA v hv (List.not_mem_nil v)

/-- The post-processing loop of `route` succeeds and fills the table: nodes
of `r` itself get their ejection port; nodes of any other router `t` get the
output port of the channel `r → fh`, where `fh` heads a minimum-latency
route to `t`. -/
theorem route_post_ok {g : AnyNetGraph} {r : Nat} {D P : List Int}
    (hwf : g.graph_wf) (hr : r < g.size) (inv : DijkInv g r [] D P)
    (hfin : ∀ x, x < g.size → D.getD x 0 < INT_MAX) :
    ∀ (todo : List Nat) (table : List (Int × Int)),
      (∀ i ∈ todo, i < g.size) → todo.Nodup →
      ∃ tbl, route_post g r D P todo table = .ok tbl ∧
        ∀ (t : Nat) (d pe l : Int), t < g.size →
          (d, (pe, l)) ∈ g.rn_row t →
          (t ∉ todo → omap_find? tbl d = omap_find? table d) ∧
          (t ∈ todo →
            (t = r → omap_find? tbl d = some pe) ∧
            (t ≠ r → ∃ (fh : Nat) (p w c : Int), fh < g.size ∧
              omap_find? tbl d = some p ∧
              omap_find? (g.rr_row r) (fh : Int) = some (p, w) ∧
              IsMinDist g fh t c ∧ IsMinDist g r t (w + c))) := by
  intro todo
  induction todo with
  | nil =>
    intro table _ _
    refine ⟨table, rfl, ?_⟩
    intro t d pe l ht hmem
    exact ⟨fun _ => rfl, fun hin => absurd hin (List.not_mem_nil t)⟩
  | cons i todo ih =>
    intro table hlt hnd
    have hi : i < g.size := hlt i (List.mem_cons_self _ _)
    have hnd' := List.nodup_cons.mp hnd
    by_cases hir : i = r
    · have hPi : P.getD i (-1) = -1 := by
        rw [hir]
        exact inv.hr0.2
      have hstep : route_post g r D P (i :: todo) table =
          route_post g r D P todo (table_add_eject (g.rn_row i) table) := by
        simp only [route_post]
        rw [hPi, if_pos rfl, if_pos hir]
      obtain ⟨tbl, heq, hchar⟩ := ih (table_add_eject (g.rn_row i) table)
        (fun j hj => hlt j (List.mem_cons_of_mem _ hj)) hnd'.2
      refine ⟨tbl, hstep.trans heq, ?_⟩
      intro t d pe l ht hmem
      constructor
      · intro hnin
        have htr : t ≠ i := fun hq => hnin (hq ▸ List.mem_cons_self _ _)
        have htodo : t ∉ todo := fun hq => hnin (List.mem_cons_of_mem _ hq)
        rw [(hchar t d pe l ht hmem).1 htodo]
        exact table_add_eject_ne d (g.rn_row i) table
          (fun e he hq => hwf.2.2.2.2.2.2.2 i hi t ht
            (fun hq' => htr hq'.symm) e he (d, pe, l) hmem hq)
      · intro hin
        rcases List.mem_cons.mp hin with heq2 | hintodo
        · refine ⟨fun _ => ?_, fun htr => absurd (heq2.trans hir) htr⟩
          have htnin : t ∉ todo := by rw [heq2]; exact hnd'.1
          have hmem' : (d, (pe, l)) ∈ g.rn_row i := by
            rw [← heq2]
            exact hmem
          rw [(hchar t d pe l ht hmem).1 htnin]
          exact table_add_eject_mem (g.rn_row i) table (d, pe, l)
            (hwf.2.2.2.2.1 i hi) hmem'
        · exact (hchar t d pe l ht hmem).2 hintodo
    · have hPine : ¬ P.getD i (-1) = -1 := by
        intro hpe
        rcases inv.hE i hi hpe with heq | hmax
        · exact hir heq
        · have := hfin i hi
          omega
      have hto : (D.getD i 0).toNat < INT_MAX.toNat := by
        have h1 := hfin i hi
        have h2 := (inv.hC i hi).1
        omega
      obtain ⟨fh, hfh, hpfh, hwalkx, hwfh⟩ :=
        walk_first_hop_ok hwf hr inv hfin INT_MAX.toNat i hi hir hto 0
      obtain ⟨p₀, w₀, hp₀, hDfh, hminfh, hminr⟩ :=
        first_hop_spec hwf hr inv hfh hi hpfh hwalkx
      have hstep : route_post g r D P (i :: todo) table =
          route_post g r D P todo
            (table_add_nodes (g.rn_row i) p₀ table) := by
        simp only [route_post]
        rw [if_neg hPine, hwfh]
        show route_post g r D P todo (table_add_nodes (g.rn_row i)
          ((omap_find? (g.rr_row r) (fh : Int)).getD (0, 0)).1 table) = _
        rw [hp₀]
        rfl
      obtain ⟨tbl, heq, hchar⟩ := ih (table_add_nodes (g.rn_row i) p₀ table)
        (fun j hj => hlt j (List.mem_cons_of_mem _ hj)) hnd'.2
      refine ⟨tbl, hstep.trans heq, ?_⟩
      intro t d pe l ht hmem
      constructor
      · intro hnin
        have hti : t ≠ i := fun hq => hnin (hq ▸ List.mem_cons_self _ _)
        have htodo : t ∉ todo := fun hq => hnin (List.mem_cons_of_mem _ hq)
        rw [(hchar t d pe l ht hmem).1 htodo]
        exact table_add_nodes_ne p₀ d (g.rn_row i) table
          (fun e he hq => hwf.2.2.2.2.2.2.2 i hi t ht
            (fun hq' => hti hq'.symm) e he (d, pe, l) hmem hq)
      · intro hin
        rcases List.mem_cons.mp hin with heq2 | hintodo
        · refine ⟨fun htr => absurd (heq2.symm.trans htr) hir, fun _ => ?_⟩
          have htnin : t ∉ todo := by rw [heq2]; exact hnd'.1
          have hmem' : (d, (pe, l)) ∈ g.rn_row i := by
            rw [← heq2]
            exact hmem
          refine ⟨fh, p₀, w₀, D.getD i 0 - D.getD fh 0, hfh, ?_, hp₀, ?_, ?_⟩
          · rw [(hchar t d pe l ht hmem).1 htnin]
            exact table_add_nodes_mem p₀ (g.rn_row i) table (d, pe, l)
              (hwf.2.2.2.2.1 i hi) hmem'
          · rw [heq2]
            exact hminfh
          · rw [heq2]
            exact hminr
        · exact (hchar t d pe l ht hmem).2 hintodo

theorem isMinDist_unique {g : AnyNetGraph} {u t : Nat} {c c' : Int}
    (h1 : IsMinDist g u t c) (h2 : IsMinDist g u t c') : c = c' := by
  obtain ⟨vs1, hw1⟩ := h1.1
  obtain ⟨vs2, hw2⟩ := h2.1
  exact le_antisymm (h1.2 vs2 c' hw2) (h2.2 vs1 c hw1)

theorem isMinDist_self {g : AnyNetGraph} (hwf : g.graph_wf) {t : Nat}
    (ht : t < g.size) : IsMinDist g t t 0 :=
  ⟨⟨[], PWalk.nil t ht⟩, fun vs c' hw => pwalk_cost_nonneg hwf hw⟩

theorem isMinDist_nonneg {g : AnyNetGraph} (hwf : g.graph_wf)
    {u t : Nat} {c : Int} (h : IsMinDist g u t c) : 0 ≤ c := by
  obtain ⟨vs, hw⟩ := h.1
  exact pwalk_cost_nonneg hwf hw

/-- Per-router correctness of `route`: Dijkstra terminates, the
post-processing succeeds, nodes of `r` map to their ejection port and nodes
of every other router map to the port of an optimal first hop. -/
theorem route_ok {g : AnyNetGraph} (hwf : g.graph_wf)
    (hconn : g.connected_b = true) (htw : g.total_weight < INT_MAX)
    {r : Nat} (hr : r < g.size) :
    ∃ tbl, route g r = .ok tbl ∧
      ∀ (t : Nat) (d pe l : Int), t < g.size →
        (d, (pe, l)) ∈ g.rn_row t →
        (t = r → omap_find? tbl d = some pe) ∧
        (t ≠ r → ∃ (fh : Nat) (p w c : Int), fh < g.size ∧
          omap_find? tbl d = some p ∧
          omap_find? (g.rr_row r) (fh : Int) = some (p, w) ∧
          IsMinDist g fh t c ∧ IsMinDist g r t (w + c)) := by
  obtain ⟨D', P', hloop, inv'⟩ := dijkstra_loop_ok hwf hr hconn htw
    g.size (List.range g.size)
    ((List.replicate g.size INT_MAX).set r 0)
    (List.replicate g.size (-1))
    (by rw [List.length_range]) (dijkstra_init hwf hr)
  have hfin := dijkstra_endstate_fin hwf hr hconn htw inv'
  obtain ⟨tbl, hpost, hchar⟩ := route_post_ok hwf hr inv' hfin
    (List.range g.size) [] (fun j hj => List.mem_range.mp hj)
    (List.nodup_range _)
  refine ⟨tbl, ?_, ?_⟩
  · simp only [route]
    rw [hloop]
    exact hpost
  · intro t d pe l ht hmem
    exact (hchar t d pe l ht hmem).2 (List.mem_range.mpr ht)

theorem range_getD {n k : Nat} (h : k < n) :
    (List.range n).getD k 0 = k := by
  simp [List.getD, List.get?_eq_getElem?, List.getElem?_range h]

/-- Generic success of `buildRoutingTable`'s fold, for any combiner that
conses successful routes. -/
theorem fold_routes_ok (g : AnyNetGraph)
    (f : Nat → RouteResult (List (List (Int × Int))) →
      RouteResult (List (List (Int × Int))))
    (hf : ∀ (r : Nat) (ts : List (List (Int × Int)))
      (t : List (Int × Int)), route g r = .ok t →
      f r (.ok ts) = .ok (t :: ts)) :
    ∀ l : List Nat, (∀ i ∈ l, ∃ t, route g i = .ok t) →
      ∃ ts : List (List (Int × Int)), l.foldr f (.ok []) = .ok ts ∧
        ts.length = l.length ∧
        ∀ k, k < l.length → route g (l.getD k 0) = .ok (ts.getD k []) := by
  intro l
  induction l with
  | nil => exact fun _ => ⟨[], rfl, rfl, fun k hk => absurd hk (by simp)⟩
  | cons i l ih =>
    intro hall
    obtain ⟨ti, hti⟩ := hall i (List.mem_cons_self _ _)
    obtain ⟨ts, hts, hlen, hidx⟩ :=
      ih (fun j hj => hall j (List.mem_cons_of_mem _ hj))
    refine ⟨ti :: ts, ?_, by simp [hlen], ?_⟩
    · simp only [List.foldr_cons]
      rw [hts]
      exact hf i ts ti hti
    · intro k hk
      cases k with
      | zero => exact hti
      | succ k => exact hidx k (by simpa using hk)

/-- `buildRoutingTable` succeeds on a well-formed connected topology and
returns one `route` table per router, in router order. -/
theorem buildRoutingTable_ok {g : AnyNetGraph} (hwf : g.graph_wf)
    (hconn : g.connected_b = true) (htw : g.total_weight < INT_MAX) :
    ∃ tbls, buildRoutingTable g = .ok tbls ∧ tbls.length = g.size ∧
      ∀ r, r < g.size → route g r = .ok (tbls.getD r []) := by
  have hall : ∀ i ∈ List.range g.size, ∃ t, route g i = .ok t := by
    intro i hi
    obtain ⟨tbl, h, _⟩ := route_ok hwf hconn htw (List.mem_range.mp hi)
    exact ⟨tbl, h⟩
  obtain ⟨ts, hts, hlen, hidx⟩ := fold_routes_ok g
    (fun r acc =>
      match route g r, acc with
      | .ok t, .ok ts => .ok (t :: ts)
      | .stuck, _ => .stuck
      | _, .stuck => .stuck
      | _, _ => .fail)
    (by
      intro r ts t h
      simp only [h])
    (List.range g.size) hall
  refine ⟨ts, ?_, by rw [hlen, List.length_range], ?_⟩
  · exact hts
  · intro r hr
    have h := hidx r (by rw [List.length_range]; exact hr)
    rw [range_getD hr] at h
    exact h

/-- Following the routing tables hop by hop from any router reaches the
destination router, accumulating exactly the minimum latency: each table
entry names the port of an optimal first hop, so the remaining distance
strictly decreases by at least 1 per hop. -/
theorem follow_ok {g : AnyNetGraph} (hwf : g.graph_wf)
    (hports : g.ports_ok) {tbls : List (List (Int × Int))}
    {t : Nat} {d : Int} (ht : t < g.size)
    (hchar : ∀ cur : Nat, cur < g.size → cur ≠ t →
      ∃ (fh : Nat) (p w c : Int), fh < g.size ∧
        table_port tbls cur d = some p ∧
        omap_find? (g.rr_row cur) (fh : Int) = some (p, w) ∧
        IsMinDist g fh t c ∧ IsMinDist g cur t (w + c)) :
    ∀ (fuel : Nat) (cur : Nat) (c : Int), cur < g.size →
      IsMinDist g cur t c → c.toNat < fuel →
      follow g tbls t d fuel cur = some (t, c) := by
  intro fuel
  induction fuel with
  | zero =>
    intro cur c _ _ h
    omega
  | succ fuel ih =>
    intro cur c hcur hc hfuel
    by_cases hct : cur = t
    · subst hct
      have hc0 : c = 0 := isMinDist_unique hc (isMinDist_self hwf hcur)
      subst hc0
      simp [follow]
    · obtain ⟨fh, p, w, c', hfh, htp, hrow, hm1, hm2⟩ := hchar cur hcur hct
      have hceq : c = w + c' := isMinDist_unique hc hm2
      have hmem : ((fh : Int), (p, w)) ∈ g.rr_row cur := omap_find?_mem hrow
      have hwpos : 0 < w := (hwf.2.2.2.2.2.1 cur hcur _ hmem).2.2
      have hc'nn : 0 ≤ c' := isMinDist_nonneg hwf hm1
      have hfind1 : (g.rr_row cur).find? (fun e => e.2.1 = p) =
          some ((fh : Int), (p, w)) := by
        have hsome : ((g.rr_row cur).find? (fun e => e.2.1 = p)).isSome := by
          rw [List.find?_isSome]
          exact ⟨_, hmem, by simp⟩
        obtain ⟨e₀, he₀⟩ := Option.isSome_iff_exists.mp hsome
        have hin := List.mem_of_find?_eq_some he₀
        have hport : e₀.2.1 = p := by
          have := List.find?_some he₀
          simpa using this
        have heqe := List.inj_on_of_nodup_map (hports cur hcur) hin hmem
          (by simp [hport])
        rw [he₀, heqe]
      have hfind2 : (g.rr_row cur).find? (fun e => e.1 = ((fh : Nat) : Int)) =
          some ((fh : Int), (p, w)) := by
        have hsome : ((g.rr_row cur).find?
            (fun e => e.1 = ((fh : Nat) : Int))).isSome := by
          rw [List.find?_isSome]
          exact ⟨_, hmem, by simp⟩
        obtain ⟨e₀, he₀⟩ := Option.isSome_iff_exists.mp hsome
        have hin := List.mem_of_find?_eq_some he₀
        have hkey : e₀.1 = ((fh : Nat) : Int) := by
          have := List.find?_some he₀
          simpa using this
        have heqe := List.inj_on_of_nodup_map (hwf.2.2.2.1 cur hcur) hin hmem
          (by simp [hkey])
        rw [he₀, heqe]
      have hnh : next_hop g tbls cur d = some fh := by
        unfold next_hop
        rw [htp]
        show ((g.rr_row cur).find? fun e => e.2.1 = p).map
          (fun e => e.1.toNat) = some fh
        rw [hfind1]
        simp
      have hrec := ih fh c' hfh hm1 (by omega)
      simp only [follow]
      rw [if_neg hct]
      simp only [hnh, hfind2, hrec, Option.map_some']
      rw [hceq]

theorem isMinDist_lt_intmax {g : AnyNetGraph} (hwf : g.graph_wf)
    (hconn : g.connected_b = true) (htw : g.total_weight < INT_MAX)
    {r t : Nat} (hr : r < g.size) (ht : t < g.size) {c : Int}
    (h : IsMinDist g r t c) : 0 ≤ c ∧ c < INT_MAX := by
  refine ⟨isMinDist_nonneg hwf h, ?_⟩
  have hconn' : t ∈ reach g r g.size := by
    unfold connected_b at hconn
    exact of_decide_eq_true hconn r hr t ht
  obtain ⟨vs, c', hwalk, hnd⟩ := reach_sound hwf hr g.size t hconn'
  have hb := pwalk_nodup_bound hwf hwalk hnd
  have hrow := row_weight_nonneg hwf ht
  have hmin := h.2 vs c' hwalk
  omega

/-- C1 (amended): on every anynet topology that is well-formed as the
parser guarantees it (`graph_wf`: covering rows, duplicate-free keys,
in-range neighbors, positive latencies, reverse channels present, each
node attached to one router), with per-router distinct output ports
(`ports_ok`), a connected router graph (`connected_b`), and total declared
latency below `INT_MAX`, `buildRoutingTable` terminates with one table per
router; `routing_table[r][d]` is `d`'s ejection port when `d` is attached
to `r` itself, and otherwise the output port of the channel `r → fh` where
`fh` heads a minimum-total-latency route to `d`'s router `t`; following
the tables hop by hop from any router `r` reaches `t` with total latency
equal to the Dijkstra distance. -/
theorem C1_routing_table_correct (g : AnyNetGraph)
    (hwf : g.graph_wf) (hports : g.ports_ok)
    (hconn : g.connected_b = true) (htw : g.total_weight < INT_MAX) :
    ∃ tbls, buildRoutingTable g = .ok tbls ∧
      ∀ (r : Nat), r < g.size → ∀ (t : Nat), t < g.size →
        ∀ (d pe l : Int), (d, (pe, l)) ∈ g.rn_row t →
          (t = r → table_port tbls r d = some pe) ∧
          (t ≠ r → ∃ (fh : Nat) (p w c : Int), fh < g.size ∧
            table_port tbls r d = some p ∧
            omap_find? (g.rr_row r) (fh : Int) = some (p, w) ∧
            IsMinDist g fh t c ∧ IsMinDist g r t (w + c)) ∧
          (∃ cost, follow g tbls t d INT_MAX.toNat r = some (t, cost) ∧
            IsMinDist g r t cost) := by
  obtain ⟨tbls, hbuild, hlen, hroutes⟩ := buildRoutingTable_ok hwf hconn htw
  refine ⟨tbls, hbuild, ?_⟩
  intro r hr t ht d pe l hmem
  have hcharAll : ∀ cur : Nat, cur < g.size →
      (t = cur → table_port tbls cur d = some pe) ∧
      (t ≠ cur → ∃ (fh : Nat) (p w c : Int), fh < g.size ∧
        table_port tbls cur d = some p ∧
        omap_find? (g.rr_row cur) (fh : Int) = some (p, w) ∧
        IsMinDist g fh t c ∧ IsMinDist g cur t (w + c)) := by
    intro cur hcur
    obtain ⟨tblc, hroute, hchar⟩ := route_ok hwf hconn htw hcur
    have hsame : tblc = tbls.getD cur [] := by
      have hq := hroutes cur hcur
      rw [hroute] at hq
      exact RouteResult.ok.inj hq
    have hc := hchar t d pe l ht hmem
    constructor
    · intro hteq
      show table_port tbls cur d = some pe
      unfold table_port
      rw [← hsame]
      exact hc.1 hteq
    · intro htne
      obtain ⟨fh, p, w, c, h1, h2, h3, h4, h5⟩ := hc.2 htne
      refine ⟨fh, p, w, c, h1, ?_, h3, h4, h5⟩
      unfold table_port
      rw [← hsame]
      exact h2
  refine ⟨(hcharAll r hr).1, (hcharAll r hr).2, ?_⟩
  have hmind : ∃ c₀, IsMinDist g r t c₀ := by
    by_cases htr : t = r
    · refine ⟨0, ?_⟩
      rw [← htr]
      exact isMinDist_self hwf ht
    · obtain ⟨fh, p, w, c, _, _, _, _, h5⟩ := (hcharAll r hr).2 htr
      exact ⟨w + c, h5⟩
  obtain ⟨c₀, hc₀⟩ := hmind
  have hbnd := isMinDist_lt_intmax hwf hconn htw hr ht hc₀
  refine ⟨c₀, follow_ok hwf hports ht
    (fun cur hcur hcne => (hcharAll cur hcur).2 (fun h => hcne h.symm))
    INT_MAX.toNat r c₀ hr hc₀ (by omega), hc₀⟩

/-- A concrete parser-shaped topology for the amended C1 theorem: three
routers in a line (latencies 5 and 3 with their reverse channels), one
node per router, distinct ports per router. -/
def lineGraph : AnyNetGraph :=
  { size := 3
    rr := [[(1, (1, 5))], [(0, (1, 5)), (2, (2, 3))], [(1, (1, 3))]]
    rn := [[(0, (0, 1))], [(1, (0, 1))], [(2, (0, 1))]] }

/-- Closed witness for the amended C1 theorem, on the concrete three-router
line `lineGraph`: all four hypotheses hold by computation and the theorem
applies. -/
theorem C1_routing_table_correct_witness :
    lineGraph.graph_wf ∧ lineGraph.ports_ok ∧
    lineGraph.connected_b = true ∧ lineGraph.total_weight < INT_MAX ∧
    (∃ tbls, buildRoutingTable lineGraph = .ok tbls ∧
      ∀ (r : Nat), r < lineGraph.size → ∀ (t : Nat), t < lineGraph.size →
        ∀ (d pe l : Int), (d, (pe, l)) ∈ lineGraph.rn_row t →
          (t = r → table_port tbls r d = some pe) ∧
          (t ≠ r → ∃ (fh : Nat) (p w c : Int), fh < lineGraph.size ∧
            table_port tbls r d = some p ∧
            omap_find? (lineGraph.rr_row r) (fh : Int) = some (p, w) ∧
            IsMinDist lineGraph fh t c ∧ IsMinDist lineGraph r t (w + c)) ∧
          (∃ cost, follow lineGraph tbls t d INT_MAX.toNat r =
              some (t, cost) ∧
            IsMinDist lineGraph r t cost)) :=
  ⟨by decide, by decide, by decide, by decide,
    C1_routing_table_correct lineGraph
      (by decide) (by decide) (by decide) (by decide)⟩

end AnyNetGraph

end GpuCacheSim
